import Mathlib

/-!
# Blipsort (BLPDQsort) — shallow embedding and verification

This file embeds the C++ translation unit `src/sort.cpp` (Blipsort: a hybrid of
introspective quicksort with branchless Lomuto partitioning, pair-insertion
sort, and heap sort) into Lean and proves or refutes the specification claims
about it.

Modelling conventions:

* Element values are `Int`.  The program instantiates its templates at the
  signed 8/16/32/64-bit integer types; values of those types embed into `Int`,
  comparisons coincide, and the only arithmetic the algorithm performs on
  elements is `p - 1` and `h + 1`, which for a `w`-bit signed type wrap
  modulo `2^w`.  Those two operations are passed explicitly as functions
  (`sub1`, `add1`); the `w`-bit instantiations are `sub1W w` / `add1W w`
  built from `wrapW w`, the two's-complement reduction `%' 2^w`.
* The array is a `List Int`; pointers are modelled by their offset from the
  array base, a `Nat`.  (Pointer `+` in C++ uses the integer operand's value;
  `blipsort` adds the `uint32_t` value `cnt - 1`, which for `cnt = 0` is
  `2^32 - 1`, not `-1` — the model reproduces this.)
* Reads and writes are fallible: reading or writing outside `[0, length)` —
  which is out-of-bounds (undefined behaviour) in the C++ — yields `none`,
  and `none` propagates.  Downward scans that would read below index `0`
  return `none` as well.
* Loops whose counter does not structurally decrease carry an explicit fuel
  argument; every internal caller supplies fuel that exceeds the loop's
  iteration bound, so for those loops `none` still signals an out-of-bounds
  access (or, for the top-level quicksort driver, fuel exhaustion).
-/

/-- Two's-complement wrap of an integer to a signed `w`-bit value. -/
def wrapW (w : Nat) (z : Int) : Int :=
  (z + 2 ^ (w - 1)) % 2 ^ w - 2 ^ (w - 1)

/-- The store of `p - 1` into a signed `w`-bit element (sentinel write,
`sort.cpp` line 725). -/
def sub1W (w : Nat) (z : Int) : Int := wrapW w (z - 1)

/-- The store of `h + 1` into a signed `w`-bit element (sentinel write,
`sort.cpp` line 657). -/
def add1W (w : Nat) (z : Int) : Int := wrapW w (z + 1)

/-- Read the element at offset `i`; `none` models an out-of-bounds read. -/
def rd (a : List Int) (i : Nat) : Option Int := a[i]?

/-- Write `v` at offset `i`; `none` models an out-of-bounds write. -/
def wr (a : List Int) (i : Nat) (v : Int) : Option (List Int) :=
  if i < a.length then some (a.set i v) else none

/-- The `swap` helper of `sort.cpp` (lines 88-99), on offsets `i` and `j`. -/
def swapIdx (a : List Int) (i j : Nat) : Option (List Int) := do
  let vi ← rd a i
  let vj ← rd a j
  let a1 ← wr a i vj
  wr a1 j vi

/-- The prefix fill of `parallelPrefixFill` (lines 49-59) on a `uint32_t`. -/
def parallelPrefixFill (x : Nat) : Nat :=
  let x1 := x ||| (x >>> 1)
  let x2 := x1 ||| (x1 >>> 2)
  let x3 := x2 ||| (x2 >>> 4)
  let x4 := x3 ||| (x3 >>> 8)
  x4 ||| (x4 >>> 16)

/-- The De Bruijn constant of `sort.cpp` (lines 14-15). -/
def deBruijn64 : Nat := 0x03F79D71B4CB0A89

/-- The De Bruijn table of `sort.cpp` (lines 21-31). -/
def deBruijnTableF : List Nat :=
  [0, 47, 1, 56, 48, 27, 2, 60,
   57, 49, 41, 37, 28, 16, 3, 61,
   54, 58, 35, 52, 50, 42, 21, 44,
   38, 32, 29, 23, 17, 11, 4, 62,
   46, 55, 26, 59, 40, 36, 15, 53,
   34, 51, 20, 43, 31, 22, 10, 45,
   25, 39, 14, 33, 19, 30, 9, 24,
   13, 18, 8, 12, 7, 6, 5, 63]

/-- `bitScanRev` (lines 69-79): index of the most significant one bit of a
nonzero `uint32_t`, via prefix fill and a De Bruijn multiply on `uint64_t`. -/
def bitScanRev (l : Nat) : Nat :=
  deBruijnTableF.getD ((parallelPrefixFill l * deBruijn64) % 2 ^ 64 >>> 58) 0

/-- The upward skip scan `while(*++l < p);` (line 714), entered with the
pointer at `low - 1`: `l` is the next index to examine.  Returns the first
index whose element is not `< p`; `none` if the scan leaves the array. -/
def scanLT (a : List Int) (p : Int) : Nat → Nat → Option Nat
  | 0, _ => none
  | fuel + 1, l => do
    let v ← rd a l
    if v < p then scanLT a p fuel (l + 1) else some l

/-- The downward skip scan `while(*--k >= p);` (line 729): `k1` is one past
the next index to examine, so the first step reads index `k1 - 1`.  Returns
the first index (from above) whose element is `< p`; `none` means the scan
ran past index `0`, i.e. the next read would be below the array. -/
def scanDownGE (a : List Int) (p : Int) : Nat → Option Nat
  | 0 => none
  | k1 + 1 => do
    let v ← rd a k1
    if p ≤ v then scanDownGE a p k1 else some k1

/-- The upward equality scan `while(*++l == h);` (line 658). -/
def scanEq (a : List Int) (h : Int) : Nat → Nat → Option Nat
  | 0, _ => none
  | fuel + 1, l => do
    let v ← rd a l
    if v = h then scanEq a h fuel (l + 1) else some l

/-- The downward skip scan `while(*--g > h);` (line 654). -/
def scanDownGT (a : List Int) (h : Int) : Nat → Option Nat
  | 0 => none
  | g1 + 1 => do
    let v ← rd a g1
    if h < v then scanDownGT a h g1 else some g1

/-- The gap loop of the main branchless Lomuto partition (lines 760-765):
`while(g < k){ *g++ = *l; *l = *g; l += (*l < p); }`.  Returns the final
array together with the final values of `l` and `g`. -/
def partLoopLT (p : Int) : Nat → List Int → Nat → Nat → Nat →
    Option (List Int × Nat × Nat)
  | 0, _, _, _, _ => none
  | fuel + 1, a, l, g, k =>
    if g < k then do
      let v ← rd a l
      let a1 ← wr a g v
      let w0 ← rd a1 (g + 1)
      let a2 ← wr a1 l w0
      partLoopLT p fuel a2 (if w0 < p then l + 1 else l) (g + 1) k
    else some (a, l, g)

/-- The gap loop of partition-left (lines 681-686):
`while(k < g){ *k++ = *l; *l = *k; l += (*l == h); }`.  In the source the
walker is named `k` and the upper bound `g`.  Returns the final array with
the final values of `l` and `k`. -/
def partLoopEQ (h : Int) : Nat → List Int → Nat → Nat → Nat →
    Option (List Int × Nat × Nat)
  | 0, _, _, _, _ => none
  | fuel + 1, a, l, k, g =>
    if k < g then do
      let v ← rd a l
      let a1 ← wr a k v
      let w0 ← rd a1 (k + 1)
      let a2 ← wr a1 l w0
      partLoopEQ h fuel a2 (if w0 = h then l + 1 else l) (k + 1) g
    else some (a, l, k)

/-- The main branchless Lomuto partition, lines 704-766 of `qSort`, up to and
including the pivot restore `*g = *l; *l = p;` but before the index
adjustments.  Returns `(array, final l, initial l, k)`; the last two are the
stop positions of the two preparatory scans, which the driver uses for its
`work` heuristic. -/
def partitionCore (sub1 : Int → Int) (a : List Int) (low high mid : Nat) :
    Option (List Int × Nat × Nat × Nat) := do
  let p ← rd a mid
  let l0 ← scanLT a p (a.length + 1) low
  let v ← rd a l0
  let a1 ← wr a mid v
  let a2 ← wr a1 l0 (sub1 p)
  let k ← scanDownGE a2 p (high + 1)
  let s ← partLoopLT p (k + 1) a2 l0 l0 k
  let v2 ← rd s.1 s.2.1
  let a4 ← wr s.1 s.2.2 v2
  let a5 ← wr a4 s.2.1 p
  some (a5, s.2.1, l0, k)

/-- The main partition including the index adjustments of lines 768-770:
`g = l + (l < high); l -= (l > low);`.  Returns `(array, l, g)`. -/
def partitionMain (sub1 : Int → Int) (a : List Int) (low high mid : Nat) :
    Option (List Int × Nat × Nat) := do
  let r ← partitionCore sub1 a low high mid
  let lp := r.2.1
  some (r.1, lp - (if low < lp then 1 else 0), lp + (if lp < high then 1 else 0))

/-- Partition-left (lines 649-690): collapse the run of keys equal to the
left neighbour `h = a[low-1]`.  Returns the array and the new `low`. -/
def partitionLeft (add1 : Int → Int) (a : List Int) (low high : Nat)
    (h : Int) : Option (List Int × Nat) := do
  let g ← scanDownGT a h (high + 1)
  let e ← rd a g
  let a1 ← wr a g (add1 h)
  let l ← scanEq a1 h (a1.length + 1) low
  let a2 ← wr a1 g e
  let p ← rd a2 l
  let s ← partLoopEQ h (g + 1) a2 l l g
  let v ← rd s.1 s.2.1
  let a4 ← wr s.1 s.2.2 v
  let a5 ← wr a4 s.2.1 p
  some (a5, s.2.1 + (if p = h then 1 else 0))

/-- The inner shift of the guarded (leftmost) insertion sort
(`for (; j >= l && t < *j; --j) j[1] = *j;`, lines 274-276).  The cursor
argument is `j + 1`, so `0` encodes `j = -1`, where the guard `j >= l`
fails.  Returns the array and the final cursor `j + 1`. -/
def insShift (t : Int) (low : Nat) : List Int → Nat → Option (List Int × Nat)
  | a, 0 => some (a, 0)
  | a, j1 + 1 =>
    if j1 + 1 ≤ low then some (a, j1 + 1)
    else do
      let v ← rd a j1
      if t < v then do
        let a1 ← wr a (j1 + 1) v
        insShift t low a1 j1
      else some (a, j1 + 1)

/-- Outer loop of the guarded (leftmost) insertion sort (lines 272-287),
instrumented with the `moves` counter.  Returns `(success, moves, array)`. -/
def iSortLeftAux (bail : Bool) (low r : Nat) :
    Nat → List Int → Nat → Nat → Option (Bool × Nat × List Int)
  | 0, _, _, _ => none
  | fuel + 1, a, i, moves =>
    if i ≤ r then do
      let t ← rd a i
      let s ← insShift t low a i
      let a2 ← wr s.1 s.2 t
      let moves2 := moves + (i - s.2)
      if bail = true ∧ 8 < moves2 then some (false, moves2, a2)
      else iSortLeftAux bail low r fuel a2 (i + 1) moves2
    else some (true, moves, a)

/-- The ascending-run skip of the pair insertion sort
(`do if (l++ >= r) return true; while (*l >= *(l - 1));`, lines 294-295).
`some none` means the whole range was ascending and the sort returned
`true`; `some (some l)` is the first descent position. -/
def skipAsc (a : List Int) (r : Nat) : Nat → Nat → Option (Option Nat)
  | 0, _ => none
  | fuel + 1, l =>
    if r ≤ l then some none
    else do
      let x ← rd a (l + 1)
      let y ← rd a l
      if y ≤ x then skipAsc a r fuel (l + 1) else some (some (l + 1))

/-- The first unguarded downward shift of a pair insertion step
(`while (ey < *--i) i[2] = *i;`, lines 320-321).  The cursor is the C
pointer `i`; each step first decrements it and then reads, so cursor `0`
means the next read would be `a[-1]` — out of bounds, hence `none`.
Returns the array and the final (decremented) cursor. -/
def pairShiftA (ey : Int) : List Int → Nat → Option (List Int × Nat)
  | _, 0 => none
  | a, c + 1 => do
    let v ← rd a c
    if ey < v then do
      let a1 ← wr a (c + 2) v
      pairShiftA ey a1 c
    else some (a, c)

/-- The second unguarded downward shift (`while (ex < *--i) i[1] = *i;`,
lines 323-324), also used for the final odd-element insertion
(lines 339-342). -/
def pairShiftB (ex : Int) : List Int → Nat → Option (List Int × Nat)
  | _, 0 => none
  | a, c + 1 => do
    let v ← rd a c
    if ex < v then do
      let a1 ← wr a (c + 1) v
      pairShiftB ex a1 c
    else some (a, c)

/-- The pair-insertion outer loop (lines 302-342), instrumented with the
`moves` counter: each iteration inserts the pair at `(i, i+1)`, and on exit
the last element is re-inserted (the odd-length fix-up, lines 339-342). -/
def pairAux (bail : Bool) (r : Nat) :
    Nat → List Int → Nat → Nat → Option (Bool × Nat × List Int)
  | 0, _, _, _ => none
  | fuel + 1, a, i, moves =>
    if i + 1 ≤ r then do
      let ex0 ← rd a i
      let ey0 ← rd a (i + 1)
      let ex := if ey0 < ex0 then ey0 else ex0
      let ey := if ey0 < ex0 then ex0 else ey0
      let m1 : Nat := if ey0 < ex0 then 1 else 0
      let s1 ← pairShiftA ey a i
      let a2 ← wr s1.1 (s1.2 + 2) ey
      let s2 ← pairShiftB ex a2 (s1.2 + 1)
      let a4 ← wr s2.1 (s2.2 + 1) ex
      let moves2 := moves + m1 + ((i + 1 - 2) - s2.2)
      if bail = true ∧ 8 < moves2 then some (false, moves2, a4)
      else pairAux bail r fuel a4 (i + 2) moves2
    else do
      let ez ← rd a r
      let s ← pairShiftB ez a r
      let a2 ← wr s.1 (s.2 + 1) ez
      some (true, moves, a2)

/-- `iSort<E, Bail>(leftmost, low, high)` (lines 256-345).  The returned
array is the final state of the (in C++, in-place) range. -/
def iSort (bail leftmost : Bool) (a : List Int) (low high : Nat) :
    Option (Bool × List Int) :=
  if leftmost then
    (iSortLeftAux bail low high (high + 2) a (low + 1) 0).map
      (fun s => (s.1, s.2.2))
  else do
    let s ← skipAsc a high (high + 2) low
    match s with
    | none => some (true, a)
    | some ds =>
        Option.map (fun t : Bool × Nat × List Int => (t.1, t.2.2))
          (pairAux bail high (high + 2) a ds 0)

/-- The loop body of `siftDown` (lines 136-176): percolate the extracted
element `z` down from index `x` in the heap `[base, base + n)` with
non-leaf boundary `o = n >>> 1`. -/
def siftDownAux (base n o : Nat) (z : Int) :
    Nat → List Int → Nat → Option (List Int)
  | 0, _, _ => none
  | fuel + 1, a, x =>
    if x < o then do
      let lIdx := 2 * x + 1
      let y0 ← rd a (base + lIdx)
      let yl ← (if lIdx + 1 < n then do
          let vr ← rd a (base + (lIdx + 1))
          pure (if y0 < vr then (vr, lIdx + 1) else (y0, lIdx))
        else pure (y0, lIdx))
      if yl.1 ≤ z then wr a (base + x) z
      else do
        let a1 ← wr a (base + x) yl.1
        siftDownAux base n o z fuel a1 yl.2
    else wr a (base + x) z

/-- `siftDown(a, i, size)` (lines 111-177) over the subarray based at
`base`. -/
def siftDown (a : List Int) (base i n : Nat) : Option (List Int) := do
  let z ← rd a (base + i)
  siftDownAux base n (n >>> 1) z (n + 1) a i

/-- The heap-build loop of `hSort` (lines 209-211): sift indices
`i1 - 1, …, 0`. -/
def buildHeap (low n : Nat) : List Int → Nat → Option (List Int)
  | a, 0 => some a
  | a, i1 + 1 => do
    let a1 ← siftDown a low i1 n
    buildHeap low n a1 i1

/-- The extraction loop of `hSort` (lines 214-219):
`while(l < --r){ z = *l; *l = *r; siftDown(l, 0, --x); *r = z; }`.
The second argument is the heap size `x`, the third the pointer `r`
(as an offset; it is decremented before the test). -/
def extractLoop (low : Nat) : List Int → Nat → Nat → Option (List Int)
  | a, _, 0 => some a
  | a, x, r1 + 1 =>
    if low < r1 then do
      let z ← rd a low
      let v ← rd a r1
      let a1 ← wr a low v
      let a2 ← siftDown a1 low 0 (x - 1)
      let a3 ← wr a2 r1 z
      extractLoop low a3 (x - 1) r1
    else some a

/-- `hSort(low, high)` (lines 197-220): classical ascending heap sort of
the inclusive range `[low, high]`. -/
def hSort (a : List Int) (low high : Nat) : Option (List Int) := do
  let n := high + 1 - low
  let a1 ← buildHeap low n a (n >>> 1 + 1)
  extractLoop low a1 n (high + 1)

/-- `scramble(low, high, len)` (lines 356-376). -/
def scramble (a : List Int) (low high len : Nat) : Option (List Int) :=
  if 88 ≤ len then do
    let q := len >>> 2
    let a1 ← swapIdx a low (low + q)
    let a2 ← swapIdx a1 high (high - q)
    if 128 < len then do
      let a3 ← swapIdx a2 (low + 1) (low + (q + 1))
      let a4 ← swapIdx a3 (low + 2) (low + (q + 2))
      let a5 ← swapIdx a4 (high - 2) (high - (q + 2))
      swapIdx a5 (high - 1) (high - (q + 1))
    else some a2
  else some a

/-- The reverse-rotation loop of `qSort` (lines 621-628):
`while(u < mid){ e = *u; *u++ = *q; *q-- = e; }`. -/
def rotLoop (mid : Nat) : Nat → List Int → Nat → Nat → Option (List Int)
  | 0, _, _, _ => none
  | fuel + 1, a, u, q =>
    if u < mid then do
      let a1 ← swapIdx a u q
      rotLoop mid fuel a1 (u + 1) (q - 1)
    else some a

/-- First conditional-swap block of the candidate network (lines 549-554):
`if (*sl < *cl) swap`. -/
def net1 (a : List Int) (cl sl : Nat) : Option (List Int) := do
  let vsl ← rd a sl
  let vcl ← rd a cl
  if vsl < vcl then swapIdx a sl cl else some a

/-- Second block (lines 556-566): insert `*mid` among `cl ≤ sl`. -/
def net2 (a : List Int) (cl sl mid : Nat) : Option (List Int) := do
  let vmid ← rd a mid
  let vsl ← rd a sl
  if vmid < vsl then do
    let a1 ← swapIdx a mid sl
    let vcl ← rd a1 cl
    if vmid < vcl then swapIdx a1 sl cl else some a1
  else some a

/-- Third block (lines 568-583): insert `*sr` among `cl ≤ sl ≤ mid`. -/
def net3 (a : List Int) (cl sl mid sr : Nat) : Option (List Int) := do
  let vsr ← rd a sr
  let vmid ← rd a mid
  if vsr < vmid then do
    let a1 ← swapIdx a sr mid
    let vsl ← rd a1 sl
    if vsr < vsl then do
      let a2 ← swapIdx a1 mid sl
      let vcl ← rd a2 cl
      if vsr < vcl then swapIdx a2 sl cl else some a2
    else some a1
  else some a

/-- Fourth block (lines 585-605): insert `*cr` among `cl ≤ sl ≤ mid ≤ sr`. -/
def net4 (a : List Int) (cl sl mid sr cr : Nat) : Option (List Int) := do
  let vcr ← rd a cr
  let vsr ← rd a sr
  if vcr < vsr then do
    let a1 ← swapIdx a cr sr
    let vmid ← rd a1 mid
    if vcr < vmid then do
      let a2 ← swapIdx a1 sr mid
      let vsl ← rd a2 sl
      if vcr < vsl then do
        let a3 ← swapIdx a2 mid sl
        let vcl ← rd a3 cl
        if vcr < vcl then swapIdx a3 sl cl else some a3
      else some a2
    else some a1
  else some a

/-- Pivot-candidate preparation of `qSort` (lines 514-629): compute the five
candidate positions, test the six adjacent pairs for a strictly descending
chain with a bitwise OR of `<=` comparisons, and either insertion-sort the
five candidates in place (widening `cl` to `low` and `cr` to `high` when the
end elements are extremal) or swap-rotate the interval around `mid`. -/
def pivotPrep (a : List Int) (low high : Nat) : Option (List Int) :=
  let x := high - low
  let y := x >>> 2
  let t3 := y + (y >>> 1)
  let t6 := t3 >>> 1
  let mid := low + (x >>> 1)
  let sl := low + t3
  let sr := high - t3
  let cl := low + t6
  let cr := high - t6
  do
  let vlow ← rd a low
  let vcl ← rd a cl
  let vsl ← rd a sl
  let vmid ← rd a mid
  let vsr ← rd a sr
  let vcr ← rd a cr
  let vhigh ← rd a high
  if vlow ≤ vcl ∨ vcl ≤ vsl ∨ vsl ≤ vmid ∨ vmid ≤ vsr ∨ vsr ≤ vcr ∨
      vcr ≤ vhigh then
    let cl2 := if vlow < vcl then low else cl
    let cr2 := if vhigh > vcr then high else cr
    do
    let a1 ← net1 a cl2 sl
    let a2 ← net2 a1 cl2 sl mid
    let a3 ← net3 a2 cl2 sl mid sr
    net4 a3 cl2 sl mid sr cr2
  else
    rotLoop mid (mid + 1) a low high

/-- The quicksort driver `qSort<E, Root>` (lines 469-846).  The `for(;;)`
tail-call loop and the recursive call both consume one unit of fuel.
`root` is the compile-time `Root` flag. -/
def qSortAux (sub1 add1 : Int → Int) :
    Nat → Bool → Bool → List Int → Nat → Nat → Int → Option (List Int)
  | 0, _, _, _, _, _, _ => none
  | fuel + 1, root, leftmost, a, low, high, height =>
    let x := high - low
    if root = false ∧ x < 88 then
      (iSort false leftmost a low high).map Prod.snd
    else if root = false ∧ height < 0 then hSort a low high
    else
      let y := x >>> 2
      let t3 := y + (y >>> 1)
      let mid := low + (x >>> 1)
      let sl := low + t3
      let sr := high - t3
      do
      let a1 ← pivotPrep a low high
      let hOpt ← (if leftmost then pure none else do
        let h0 ← (if low = 0 then none else rd a1 (low - 1))
        let vsl ← rd a1 sl
        let vmid ← rd a1 mid
        let vsr ← rd a1 sr
        pure (if h0 = vsl ∨ h0 = vmid ∨ h0 = vsr then some h0 else none))
      match hOpt with
      | some h => do
        let s ← partitionLeft add1 a1 low high h
        if high ≤ s.2 then some s.1
        else qSortAux sub1 add1 fuel root false s.1 s.2 high height
      | none => do
        let pr ← partitionCore sub1 a1 low high mid
        let a2 := pr.1
        let lp := pr.2.1
        let l0 := pr.2.2.1
        let k := pr.2.2.2
        let g := lp + (if lp < high then 1 else 0)
        let l := lp - (if low < lp then 1 else 0)
        let ls := l - low
        let gs := high - g
        let rightPart : List Int → Int → Option (List Int) := fun aR ht =>
          if root = true ∧ high - g < 88 then
            (iSort false false aR g high).map Prod.snd
          else if root = true ∧ ht < 0 then hSort aR g high
          else qSortAux sub1 add1 fuel root false aR g high ht
        let both : List Int → Int → Option (List Int) := fun aB ht => do
          let aL ← qSortAux sub1 add1 fuel false leftmost aB low l ht
          rightPart aL ht
        if x >>> 3 ≤ ls ∧ x >>> 3 ≤ gs then
          if (l0 - low) + (high - k) < x >>> 1 then both a2 height
          else do
            let s1 ← iSort true leftmost a2 low l
            if s1.1 = false then both s1.2 height
            else do
              let s2 ← iSort true false s1.2 g high
              if s2.1 = false then rightPart s2.2 height
              else some s2.2
        else do
          let a3 ← scramble a2 low l ls
          let a4 ← scramble a3 g high gs
          both a4 (height - 1)

/-- `Arrays::blipsort(a, cnt)` (lines 862-876), with `cnt = a.length`
(the stated precondition).  For `cnt < 88` it delegates to the guarded
leftmost insertion sort over `[0, cnt - 1]`, where `cnt - 1` is computed in
`uint32_t` arithmetic and used as a (zero-extended) pointer offset;
otherwise it seeds the depth with `bitScanRev cnt` and runs the root
quicksort driver. -/
def blipsort (sub1 add1 : Int → Int) (a : List Int) : Option (List Int) :=
  let cnt := a.length
  if cnt < 88 then
    (iSort false true a 0 ((cnt + 2 ^ 32 - 1) % 2 ^ 32)).map Prod.snd
  else
    qSortAux sub1 add1 (2 * cnt + 64) true true a 0 (cnt - 1)
      (Int.ofNat (bitScanRev cnt))

/-- The `int8_t` instantiation `Arrays::blipsort<int8_t>` (line 885). -/
def blipsort8 (a : List Int) : Option (List Int) :=
  blipsort (sub1W 8) (add1W 8) a

/-! ## Basic lemmas about the memory model -/

theorem rd_eq_some {a : List Int} {i : Nat} {v : Int} :
    rd a i = some v ↔ ∃ h : i < a.length, a[i] = v := by
  simp [rd, List.getElem?_eq_some]

theorem wr_eq_some {a : List Int} {i : Nat} {v : Int} {b : List Int} :
    wr a i v = some b ↔ i < a.length ∧ b = a.set i v := by
  unfold wr
  split_ifs with h
  · simp [h, eq_comm]
  · simp [h]

theorem swapIdx_some_dest {a : List Int} {i j : Nat} {b : List Int}
    (h : swapIdx a i j = some b) :
    ∃ vi vj, rd a i = some vi ∧ rd a j = some vj ∧
      b = (a.set i vj).set j vi := by
  unfold swapIdx at h
  rcases hvi : rd a i with _ | vi <;> rw [hvi] at h
  · simp at h
  rcases hvj : rd a j with _ | vj <;> rw [hvj] at h
  · simp at h
  simp only [Option.bind_eq_bind, Option.some_bind] at h
  rcases hw1 : wr a i vj with _ | a1 <;> rw [hw1] at h
  · simp at h
  simp only [Option.some_bind] at h
  rcases (wr_eq_some.mp hw1) with ⟨hi, rfl⟩
  rcases (wr_eq_some.mp h) with ⟨hj, rfl⟩
  exact ⟨vi, vj, rfl, rfl, rfl⟩

theorem swapIdx_some_of {a : List Int} {i j : Nat} {vi vj : Int}
    (hvi : rd a i = some vi) (hvj : rd a j = some vj) :
    swapIdx a i j = some ((a.set i vj).set j vi) := by
  obtain ⟨hi, -⟩ := rd_eq_some.mp hvi
  obtain ⟨hj, -⟩ := rd_eq_some.mp hvj
  unfold swapIdx
  rw [hvi, hvj]
  simp [wr, hi, hj]

/-- Replacing `a[i]` by `v` exchanges `a[i]` for `v` in the multiset of
elements. -/
theorem msSet {a : List Int} {i : Nat} {w : Int} (h : a[i]? = some w)
    (v : Int) :
    (↑(a.set i v) : Multiset Int) + {w} = (↑a : Multiset Int) + {v} := by
  induction a generalizing i with
  | nil => simp at h
  | cons x t ih =>
    cases i with
    | zero =>
      simp only [List.getElem?_cons_zero, Option.some.injEq] at h
      subst h
      show (↑((x :: t).set 0 v) : Multiset Int) + {x} = ↑(x :: t) + {v}
      rw [List.set_cons_zero, ← Multiset.cons_coe, ← Multiset.cons_coe,
        Multiset.cons_add, Multiset.cons_add,
        add_comm (↑t : Multiset Int) {x}, add_comm (↑t : Multiset Int) {v},
        Multiset.singleton_add, Multiset.singleton_add]
      exact Multiset.cons_swap v x ↑t
    | succ n =>
      simp only [List.getElem?_cons_succ] at h
      have ht := ih h
      show (↑((x :: t).set (n + 1) v) : Multiset Int) + {w} =
        ↑(x :: t) + {v}
      rw [List.set_cons_succ, ← Multiset.cons_coe, ← Multiset.cons_coe,
        Multiset.cons_add, Multiset.cons_add, ht]

/-- Writing back the value already present leaves the list unchanged. -/
theorem set_rd_self {a : List Int} {i : Nat} {v : Int}
    (h : a[i]? = some v) : a.set i v = a := by
  apply List.ext_getElem?
  intro n
  rcases eq_or_ne i n with rfl | hne
  · rw [List.getElem?_set_self', h]
    rfl
  · exact List.getElem?_set_ne hne

/-- Swapping two entries preserves the multiset of elements. -/
theorem msSwap {a : List Int} {i j : Nat} {vi vj : Int}
    (hi : a[i]? = some vi) (hj : a[j]? = some vj) :
    (↑((a.set i vj).set j vi) : Multiset Int) = (↑a : Multiset Int) := by
  rcases eq_or_ne i j with rfl | hne
  · rw [List.set_set]
    have : vi = vj := by rw [hi] at hj; exact (Option.some.injEq _ _).mp hj
    rw [this, set_rd_self hj]
  · have hj' : (a.set i vj)[j]? = some vj := by
      rw [List.getElem?_set_ne hne, hj]
    have h1 := @msSet (a.set i vj) j vj hj' vi
    have h2 := @msSet a i vi hi vj
    have h3 : (↑((a.set i vj).set j vi) : Multiset Int) + {vj} + {vi} =
        ↑a + {vj} + {vi} := by rw [h1, h2]
    exact add_right_cancel (add_right_cancel h3)

/-! ## Scan lemmas -/

theorem scanDownGE_spec {a : List Int} {p : Int} :
    ∀ {k1 k : Nat}, scanDownGE a p k1 = some k →
      k < k1 ∧ (∃ hk : k < a.length, a[k] < p) ∧
        ∀ j, k < j → j < k1 → ∃ hj : j < a.length, p ≤ a[j] := by
  intro k1
  induction k1 with
  | zero => intro k h; simp [scanDownGE] at h
  | succ n ih =>
    intro k h
    unfold scanDownGE at h
    rcases hv : rd a n with _ | v <;> rw [hv] at h
    · simp at h
    simp only [Option.bind_eq_bind, Option.some_bind] at h
    obtain ⟨hn, hvn⟩ := rd_eq_some.mp hv
    split_ifs at h with hle
    · obtain ⟨h1, h2, h3⟩ := ih h
      refine ⟨by omega, h2, ?_⟩
      intro j hj hjn
      rcases eq_or_lt_of_le (Nat.lt_succ_iff.mp hjn) with rfl | hjn'
      · exact ⟨hn, by omega⟩
      · exact h3 j hj hjn'
    · cases h
      exact ⟨Nat.lt_succ_self n, ⟨hn, by omega⟩,
        fun j hj hjn => by omega⟩

theorem scanDownGE_exists {a : List Int} {p v : Int} {j : Nat}
    (hj : rd a j = some v) (hv : v < p) :
    ∀ {k1 : Nat}, j < k1 → k1 ≤ a.length →
      ∃ k, scanDownGE a p k1 = some k ∧ j ≤ k ∧ k < k1 := by
  intro k1
  induction k1 with
  | zero => omega
  | succ n ih =>
    intro hjk hlen
    have hn : n < a.length := by omega
    have hvn : rd a n = some a[n] := by
      simp [rd, List.getElem?_eq_getElem hn]
    rcases le_or_lt p a[n] with hple | hplt
    · have hne : j ≠ n := by
        intro hEq
        subst hEq
        rw [hj] at hvn
        have := (Option.some.injEq _ _).mp hvn
        omega
      obtain ⟨k, hk, hk1, hk2⟩ := ih (by omega) (by omega)
      refine ⟨k, ?_, hk1, by omega⟩
      unfold scanDownGE
      rw [hvn]
      simp [hple, hk]
    · refine ⟨n, ?_, by omega, by omega⟩
      unfold scanDownGE
      rw [hvn]
      simp [not_le.mpr hplt]

theorem scanLT_spec {a : List Int} {p : Int} :
    ∀ {fuel l0 l : Nat}, scanLT a p fuel l0 = some l →
      l0 ≤ l ∧ (∃ hl : l < a.length, ¬ a[l] < p) ∧
        ∀ j, l0 ≤ j → j < l → ∃ hj : j < a.length, a[j] < p := by
  intro fuel
  induction fuel with
  | zero => intro l0 l h; simp [scanLT] at h
  | succ n ih =>
    intro l0 l h
    unfold scanLT at h
    rcases hv : rd a l0 with _ | v <;> rw [hv] at h
    · simp at h
    simp only [Option.bind_eq_bind, Option.some_bind] at h
    obtain ⟨hl0, hvl0⟩ := rd_eq_some.mp hv
    split_ifs at h with hlt
    · obtain ⟨h1, h2, h3⟩ := ih h
      refine ⟨by omega, h2, ?_⟩
      intro j hj hjl
      rcases eq_or_lt_of_le hj with rfl | hj'
      · exact ⟨hl0, by omega⟩
      · exact h3 j hj' hjl
    · cases h
      exact ⟨le_refl _, ⟨hl0, by omega⟩,
        fun j hj hjl => by omega⟩

theorem scanEq_spec {a : List Int} {h : Int} :
    ∀ {fuel l0 l : Nat}, scanEq a h fuel l0 = some l →
      l0 ≤ l ∧ (∃ hl : l < a.length, a[l] ≠ h) ∧
        ∀ j, l0 ≤ j → j < l → ∃ hj : j < a.length, a[j] = h := by
  intro fuel
  induction fuel with
  | zero => intro l0 l hrun; simp [scanEq] at hrun
  | succ n ih =>
    intro l0 l hrun
    unfold scanEq at hrun
    rcases hv : rd a l0 with _ | v <;> rw [hv] at hrun
    · simp at hrun
    simp only [Option.bind_eq_bind, Option.some_bind] at hrun
    obtain ⟨hl0, hvl0⟩ := rd_eq_some.mp hv
    split_ifs at hrun with heq
    · obtain ⟨h1, h2, h3⟩ := ih hrun
      refine ⟨by omega, h2, ?_⟩
      intro j hj hjl
      rcases eq_or_lt_of_le hj with rfl | hj'
      · exact ⟨hl0, by rw [hvl0, heq]⟩
      · exact h3 j hj' hjl
    · cases hrun
      exact ⟨le_refl _, ⟨hl0, by rw [hvl0]; exact heq⟩,
        fun j hj hjl => by omega⟩

theorem scanEq_exists {a : List Int} {h w : Int} {s : Nat}
    (hs : rd a s = some w) (hw : w ≠ h) :
    ∀ {fuel : Nat} (l0 : Nat), l0 ≤ s → s - l0 < fuel →
      ∃ l, scanEq a h fuel l0 = some l ∧ l0 ≤ l ∧ l ≤ s := by
  intro fuel
  induction fuel with
  | zero => intro l0 h1 h2; omega
  | succ n ih =>
    intro l0 hls hfuel
    obtain ⟨hsl, hsv⟩ := rd_eq_some.mp hs
    have hl0 : l0 < a.length := by omega
    have hvl0 : rd a l0 = some a[l0] := by
      simp [rd, List.getElem?_eq_getElem hl0]
    rcases eq_or_ne (a[l0]) h with heq | hne
    · have hne0 : l0 ≠ s := by
        intro hEq
        subst hEq
        rw [hvl0] at hs
        exact hw (by rw [← (Option.some.injEq _ _).mp hs, heq])
      obtain ⟨l, hl, hl1, hl2⟩ := ih (l0 + 1) (by omega) (by omega)
      refine ⟨l, ?_, by omega, hl2⟩
      unfold scanEq
      rw [hvl0]
      simp [heq, hl]
    · refine ⟨l0, ?_, le_refl _, hls⟩
      unfold scanEq
      rw [hvl0]
      simp [hne]

theorem scanDownGT_spec {a : List Int} {h : Int} :
    ∀ {g1 g : Nat}, scanDownGT a h g1 = some g →
      g < g1 ∧ (∃ hg : g < a.length, a[g] ≤ h) ∧
        ∀ j, g < j → j < g1 → ∃ hj : j < a.length, h < a[j] := by
  intro g1
  induction g1 with
  | zero => intro g hrun; simp [scanDownGT] at hrun
  | succ n ih =>
    intro g hrun
    unfold scanDownGT at hrun
    rcases hv : rd a n with _ | v <;> rw [hv] at hrun
    · simp at hrun
    simp only [Option.bind_eq_bind, Option.some_bind] at hrun
    obtain ⟨hn, hvn⟩ := rd_eq_some.mp hv
    split_ifs at hrun with hgt
    · obtain ⟨h1, h2, h3⟩ := ih hrun
      refine ⟨by omega, h2, ?_⟩
      intro j hj hjn
      rcases eq_or_lt_of_le (Nat.lt_succ_iff.mp hjn) with rfl | hjn'
      · exact ⟨hn, by omega⟩
      · exact h3 j hj hjn'
    · cases hrun
      exact ⟨Nat.lt_succ_self n, ⟨hn, by omega⟩,
        fun j hj hjn => by omega⟩

theorem scanDownGT_exists {a : List Int} {h v : Int} {j : Nat}
    (hj : rd a j = some v) (hv : v ≤ h) :
    ∀ {g1 : Nat}, j < g1 → g1 ≤ a.length →
      ∃ g, scanDownGT a h g1 = some g ∧ j ≤ g ∧ g < g1 := by
  intro g1
  induction g1 with
  | zero => omega
  | succ n ih =>
    intro hjg hlen
    have hn : n < a.length := by omega
    have hvn : rd a n = some a[n] := by
      simp [rd, List.getElem?_eq_getElem hn]
    rcases le_or_lt a[n] h with hle | hgt
    · refine ⟨n, ?_, by omega, by omega⟩
      unfold scanDownGT
      rw [hvn]
      simp [not_lt.mpr hle]
    · have hne : j ≠ n := by
        intro hEq
        subst hEq
        rw [hj] at hvn
        have := (Option.some.injEq _ _).mp hvn
        omega
      obtain ⟨g, hg, hg1, hg2⟩ := ih (by omega) (by omega)
      refine ⟨g, ?_, hg1, by omega⟩
      unfold scanDownGT
      rw [hvn]
      simp [hgt, hg]

/-! ## Claim C1 — full functional correctness of `blipsort` -/

set_option maxRecDepth 1000000 in
/-- Claim C1 (code defect, evaluation at the failing input): on the array of
89 copies of the `int8_t` minimum `-128`, which satisfies the stated
preconditions, `blipsort` does not run to completion: the pivot is `-128`,
the sentinel `p - 1` wraps to `127 ≥ p`, and the preparatory scan
`while(*--k >= p)` runs below the front of the array (`none`), so no sorted
permutation is ever produced. -/
theorem c1_blipsort_min_pivot_aborts :
    blipsort8 (List.replicate 89 (-128)) = none := by decide

/-! ## Claim C3 — boundary lengths and the `cnt = 0` high pointer -/

set_option maxRecDepth 1000000 in
/-- Claim C3 (code defect, evaluation at the failing input): for `cnt = 0`
the dispatcher computes the high pointer as `a + (cnt - 1)` with `cnt` an
unsigned 32-bit integer, i.e. offset `(0 - 1) mod 2^32 = 4294967295`, and
the guarded insertion sort then reads `a[1]` of the empty array: the call
is not well-behaved and the empty output is never returned. -/
theorem c3_blipsort_empty_aborts : blipsort8 [] = none := by decide

/-! ## Claim C9 — termination of the routine -/

set_option maxRecDepth 1000000 in
/-- Claim C9 (code defect, evaluation at the failing input): on 100 copies
of the `int8_t` minimum, the routine does not run to completion — the main
partition's right-to-left scan leaves the array instead of stopping, so
`blipsort` has no completed run on this input. -/
theorem c9_blipsort_min_input_no_completion :
    blipsort8 (List.replicate 100 (-128)) = none := by decide

/-! ## Claim C2 — the sentinel and the right-to-left scan -/

set_option maxRecDepth 1000000 in
/-- Claim C2 (counterexample): with pivot `p = -128` (the `int8_t` minimum)
the sentinel `p - 1` wraps to `127`, and on the concrete post-sentinel
array `127 :: (-128)^88` the scan `while(*--k >= p)` started at `high = 88`
never stops at any index `≥ low = 0` (it runs past the front of the array:
`none`); consequently the whole main partition on 89 copies of `-128`
aborts instead of completing. -/
theorem c2_scan_below_low_counterexample :
    scanDownGE (127 :: List.replicate 88 (-128)) (-128) 89 = none ∧
    partitionCore (sub1W 8) (List.replicate 89 (-128)) 0 88 44 = none := by
  decide

/-- Claim C2 (amended): in the main branchless Lomuto partition, PROVIDED
the sentinel value `sub1 p` stored in the gap at `l0` is strictly less than
the pivot `p` — i.e. `p` is not the minimum value of the element type, so
`p - 1` does not wrap — the right-to-left preparatory scan
`while(*--k >= p)` started at `high` stops at an index `k` with
`low ≤ l0 ≤ k ≤ high`: the sentinel prevents the scan from reading below
the subrange. -/
theorem c2_sentinel_stops_scan (sub1 : Int → Int) (a : List Int) (p : Int)
    (low l0 high : Nat) (hsent : rd a l0 = some (sub1 p))
    (hwrap : sub1 p < p) (hlow : low ≤ l0) (hl : l0 ≤ high)
    (hh : high < a.length) :
    ∃ k, scanDownGE a p (high + 1) = some k ∧ low ≤ k ∧ l0 ≤ k ∧
      k ≤ high := by
  obtain ⟨k, hk, hk1, hk2⟩ :=
    @scanDownGE_exists a p (sub1 p) l0 hsent hwrap (high + 1) (by omega)
      (by omega)
  exact ⟨k, hk, by omega, hk1, by omega⟩

/-- Witness for `c2_sentinel_stops_scan`: pivot `p = 5`, sentinel `4` at
index 1 of `[9, 4, 7, 2, 8]`. -/
theorem c2_sentinel_stops_scan_witness :
    ∃ k, scanDownGE [9, 4, 7, 2, 8] 5 5 = some k ∧ 0 ≤ k ∧ 1 ≤ k ∧
      k ≤ 4 :=
  c2_sentinel_stops_scan (sub1W 8) [9, 4, 7, 2, 8] 5 0 1 4 (by decide)
    (by decide) (by decide) (by decide) (by decide)

/-! ## Claim C4 — the non-root small-range cutoff -/

set_option maxRecDepth 1000000 in
/-- Claim C4 (counterexample): the non-root small-range cutoff calls
`iSort<E, false>`, i.e. with bail-out DISABLED, not enabled.  On the
reverse-sorted 20-element range, the driver's small-range path produces the
fully sorted range, whereas `iSort` with bail-out enabled bails out

after 9 moves and leaves the range unsorted — so the driver cannot be
running the bail-out-enabled `iSort` the claim describes. -/
theorem c4_bailout_disabled_counterexample :
    qSortAux (sub1W 8) (add1W 8) 5 false true
        ((List.range 20).reverse.map Int.ofNat) 0 19 0 =
      some ((List.range 20).map Int.ofNat) ∧
    iSort true true ((List.range 20).reverse.map Int.ofNat) 0 19 =
      some (false,
        [15, 16, 17, 18, 19, 14, 13, 12, 11, 10, 9, 8, 7, 6, 5, 4, 3, 2, 1, 0]) ∧
    ([15, 16, 17, 18, 19, 14, 13, 12, 11, 10, 9, 8, 7, 6, 5, 4, 3, 2, 1, 0] :
        List Int) ≠ (List.range 20).map Int.ofNat := by
  refine ⟨by decide, by decide, by decide⟩

/-- Claim C4 (amended): in every non-root `qSort` frame with
`x = high - low < 88`, the driver runs `iSort(leftmost, low, high)` with
bail-out DISABLED (`iSort<E, false>`) and returns its final array. -/
theorem c4_small_range_runs_isort_nobail (sub1 add1 : Int → Int)
    (fuel : Nat) (leftmost : Bool) (a : List Int) (low high : Nat)
    (height : Int) (hx : high - low < 88) :
    qSortAux sub1 add1 (fuel + 1) false leftmost a low high height =
      (iSort false leftmost a low high).map Prod.snd := by
  simp [qSortAux, hx]

/-- Witness for `c4_small_range_runs_isort_nobail` at a concrete input. -/
theorem c4_small_range_runs_isort_nobail_witness :
    qSortAux (sub1W 8) (add1W 8) 3 false true [2, 1] 0 1 0 =
      (iSort false true [2, 1] 0 1).map Prod.snd :=
  c4_small_range_runs_isort_nobail (sub1W 8) (add1W 8) 2 true [2, 1] 0 1 0
    (by decide)


/-! ## The main partition gap loop -/

theorem partLoopLT_post {p : Int} {lo hi : Nat} :
    ∀ {fuel : Nat} {a : List Int} {l g k : Nat} {a3 : List Int} {l3 g3 : Nat},
      partLoopLT p fuel a l g k = some (a3, l3, g3) →
      l ≤ g → g ≤ k → k < a.length →
      (∀ j v, lo ≤ j → j < l → a[j]? = some v → v < p) →
      (∀ j v, l ≤ j → j < g → a[j]? = some v → p ≤ v) →
      (∀ j v, k < j → j ≤ hi → a[j]? = some v → p ≤ v) →
      g3 = k ∧ l ≤ l3 ∧ l3 ≤ k ∧ a3.length = a.length ∧
      (∀ j v, lo ≤ j → j < l3 → a3[j]? = some v → v < p) ∧
      (∀ j v, l3 ≤ j → j < k → a3[j]? = some v → p ≤ v) ∧
      (∀ j v, k < j → j ≤ hi → a3[j]? = some v → p ≤ v) ∧
      (∀ j, j < l ∨ k < j → a3[j]? = a[j]?) ∧
      (↑(a3.set k p) : Multiset Int) = ↑(a.set g p) := by
  intro fuel
  induction fuel with
  | zero =>
    intro a l g k a3 l3 g3 hrun
    simp [partLoopLT] at hrun
  | succ n ih =>
    intro a l g k a3 l3 g3 hrun h1 h2 h3 inv1 inv2 inv3
    unfold partLoopLT at hrun
    split_ifs at hrun with hgk
    case neg =>
      simp only [Option.some.injEq, Prod.mk.injEq] at hrun
      obtain ⟨rfl, rfl, rfl⟩ := hrun
      have hgkEq : g = k := by omega
      subst hgkEq
      exact ⟨rfl, le_refl _, h1, rfl, inv1, inv2, inv3,
        fun j hj => rfl, rfl⟩
    case pos =>
      rcases hv : rd a l with _ | v <;> rw [hv] at hrun
      · simp at hrun
      simp only [Option.bind_eq_bind, Option.some_bind] at hrun
      rcases hw1 : wr a g v with _ | a1 <;> rw [hw1] at hrun
      · simp at hrun
      simp only [Option.some_bind] at hrun
      rcases hw0 : rd a1 (g + 1) with _ | w0 <;> rw [hw0] at hrun
      · simp at hrun
      simp only [Option.some_bind] at hrun
      rcases hw2 : wr a1 l w0 with _ | a2 <;> rw [hw2] at hrun
      · simp at hrun
      simp only [Option.some_bind] at hrun
      obtain ⟨hglen, rfl⟩ := wr_eq_some.mp hw1
      obtain ⟨hllen, rfl⟩ := wr_eq_some.mp hw2
      simp only [rd] at hv hw0
      have hllen' : l < a.length := by omega
      have hklen : k < ((a.set g v).set l w0).length := by
        simp only [List.length_set]
        omega
      -- the value v read at l is known to the regions
      have hvl : a[l]? = some v := hv
      -- invariants for the recursive call
      have inv1' : ∀ j u, lo ≤ j → j < (if w0 < p then l + 1 else l) →
          ((a.set g v).set l w0)[j]? = some u → u < p := by
        intro j u hj1 hj2 hj3
        by_cases hj : j = l
        · subst hj
          rw [List.getElem?_set_eq_of_lt w0 (by simp [List.length_set]; omega)]
            at hj3
          have : u = w0 := by
            exact ((Option.some.injEq _ _).mp hj3).symm
          subst this
          split_ifs at hj2 with hcase
          · exact hcase
          · omega
        · have hjl : j < l := by
            split_ifs at hj2 with hcase <;> omega
          rw [List.getElem?_set_ne (by omega : l ≠ j),
            List.getElem?_set_ne (by omega : g ≠ j)] at hj3
          exact inv1 j u hj1 hjl hj3
      have inv2' : ∀ j u, (if w0 < p then l + 1 else l) ≤ j → j < g + 1 →
          ((a.set g v).set l w0)[j]? = some u → p ≤ u := by
        intro j u hj1 hj2 hj3
        by_cases hj : j = l
        · subst hj
          rw [List.getElem?_set_eq_of_lt w0 (by simp [List.length_set]; omega)]
            at hj3
          have : u = w0 := ((Option.some.injEq _ _).mp hj3).symm
          subst this
          split_ifs at hj1 with hcase
          · omega
          · omega
        · by_cases hjg : j = g
          · rw [hjg, List.getElem?_set_ne (by omega : l ≠ g),
              List.getElem?_set_eq_of_lt v hglen] at hj3
            have hu : u = v := ((Option.some.injEq _ _).mp hj3).symm
            rw [hu]
            exact inv2 l v (le_refl _) (by omega) hvl
          · have hjg' : j < g := by omega
            have hjl : l ≤ j ∧ l ≠ j := by
              constructor
              · split_ifs at hj1 <;> omega
              · omega
            rw [List.getElem?_set_ne (by omega : l ≠ j),
              List.getElem?_set_ne (by omega : g ≠ j)] at hj3
            exact inv2 j u (by omega) hjg' hj3
      have inv3' : ∀ j u, k < j → j ≤ hi →
          ((a.set g v).set l w0)[j]? = some u → p ≤ u := by
        intro j u hj1 hj2 hj3
        rw [List.getElem?_set_ne (by omega : l ≠ j),
          List.getElem?_set_ne (by omega : g ≠ j)] at hj3
        exact inv3 j u hj1 hj2 hj3
      obtain ⟨c1, c2, c3, c4, c5, c6, c7, c8, c9⟩ :=
        ih hrun (by split_ifs <;> omega) (by omega) hklen inv1' inv2' inv3'
      have houter : ∀ j, j < l ∨ k < j →
          ((a.set g v).set l w0)[j]? = a[j]? := by
        intro j hj
        rw [List.getElem?_set_ne (by omega : l ≠ j),
          List.getElem?_set_ne (by omega : g ≠ j)]
      refine ⟨c1, by split_ifs at c2 <;> omega, c3,
        by rw [c4]; simp [List.length_set], c5, c6, c7, ?_, ?_⟩
      · intro j hj
        have hj2 : j < (if w0 < p then l + 1 else l) ∨ k < j := by
          rcases hj with hj | hj
          · left; split_ifs <;> omega
          · right; exact hj
        rw [c8 j hj2, houter j hj]
      · -- multiset bookkeeping for one gap-loop step
        have hag : a[g]? = some a[g] := List.getElem?_eq_getElem hglen
        have hs1 := @msSet a g (a[g]) hag v
        have hsetl : (a.set g v)[l]? = some v := by
          by_cases hlg : l = g
          · subst hlg
            exact List.getElem?_set_eq_of_lt v hglen
          · rw [List.getElem?_set_ne (by omega : g ≠ l)]
            exact hvl
        have hs2 := @msSet (a.set g v) l v hsetl w0
        have ha2g1 : ((a.set g v).set l w0)[g + 1]? = some w0 := by
          rw [List.getElem?_set_ne (by omega : l ≠ g + 1)]
          exact hw0
        have hs3 := @msSet ((a.set g v).set l w0) (g + 1) w0 ha2g1 p
        have hs4 := @msSet a g (a[g]) hag p
        have key : (↑(((a.set g v).set l w0).set (g + 1) p) : Multiset Int) +
            ({w0} + {v} + {a[g]}) =
            (↑(a.set g p) : Multiset Int) + ({w0} + {v} + {a[g]}) := by
          calc (↑(((a.set g v).set l w0).set (g + 1) p) : Multiset Int) +
              ({w0} + {v} + {a[g]})
              = ((↑(((a.set g v).set l w0).set (g + 1) p) : Multiset Int) +
                {w0}) + {v} + {a[g]} := by abel
            _ = ((↑((a.set g v).set l w0) : Multiset Int) + {p}) + {v} +
                {a[g]} := by rw [hs3]
            _ = ((↑((a.set g v).set l w0) : Multiset Int) + {v}) +
                {a[g]} + {p} := by abel
            _ = ((↑(a.set g v) : Multiset Int) + {w0}) + {a[g]} +
                {p} := by rw [hs2]
            _ = ((↑(a.set g v) : Multiset Int) + {a[g]}) + {w0} +
                {p} := by abel
            _ = ((↑a : Multiset Int) + {v}) + {w0} + {p} := by rw [hs1]
            _ = ((↑a : Multiset Int) + {p}) + ({w0} + {v}) := by abel
            _ = ((↑(a.set g p) : Multiset Int) + {a[g]}) +
                ({w0} + {v}) := by rw [hs4]
            _ = (↑(a.set g p) : Multiset Int) +
                ({w0} + {v} + {a[g]}) := by abel
        have step := add_right_cancel key
        rw [c9, step]

theorem getElem?_val_of {a : List Int} {j : Nat} {v : Int}
    (hlt : j < a.length) (h : a[j]? = some v) : a[j] = v := by
  rw [List.getElem?_eq_getElem hlt] at h
  exact (Option.some.injEq _ _).mp h

/-- Combined post-state of the main branchless Lomuto partition
(`partitionCore`): the scans and the gap loop leave
`a5[low..lp) < p`, `a5[lp] = p`, `a5(lp..high] ≥ p`, touch nothing outside
`[low, high]`, and preserve the multiset of elements. -/
theorem partitionCore_post {sub1 : Int → Int} {a : List Int}
    {low high mid : Nat} {p : Int} {a5 : List Int} {lp l0 k : Nat}
    (hmid : rd a mid = some p) (hlm : low ≤ mid) (hmh : mid ≤ high)
    (hh : high < a.length)
    (hrun : partitionCore sub1 a low high mid = some (a5, lp, l0, k)) :
    low ≤ lp ∧ lp ≤ high ∧ a5.length = a.length ∧
    (∀ j v, low ≤ j → j < lp → a5[j]? = some v → v < p) ∧
    a5[lp]? = some p ∧
    (∀ j v, lp < j → j ≤ high → a5[j]? = some v → p ≤ v) ∧
    (∀ j, j < low ∨ high < j → a5[j]? = a[j]?) ∧
    (↑a5 : Multiset Int) = ↑a := by
  obtain ⟨hmlen, hma⟩ := rd_eq_some.mp hmid
  unfold partitionCore at hrun
  rw [hmid] at hrun
  simp only [Option.bind_eq_bind, Option.some_bind] at hrun
  rcases hscan : scanLT a p (a.length + 1) low with _ | l0' <;>
    rw [hscan] at hrun
  · simp at hrun
  simp only [Option.some_bind] at hrun
  rcases hv : rd a l0' with _ | v <;> rw [hv] at hrun
  · simp at hrun
  simp only [Option.some_bind] at hrun
  rcases hw1 : wr a mid v with _ | a1 <;> rw [hw1] at hrun
  · simp at hrun
  simp only [Option.some_bind] at hrun
  rcases hw2 : wr a1 l0' (sub1 p) with _ | a2 <;> rw [hw2] at hrun
  · simp at hrun
  simp only [Option.some_bind] at hrun
  obtain ⟨-, rfl⟩ := wr_eq_some.mp hw1
  obtain ⟨hl0len, rfl⟩ := wr_eq_some.mp hw2
  rcases hk : scanDownGE ((a.set mid v).set l0' (sub1 p)) p (high + 1)
    with _ | k' <;> rw [hk] at hrun
  · simp at hrun
  simp only [Option.some_bind] at hrun
  rcases hloop : partLoopLT p (k' + 1) ((a.set mid v).set l0' (sub1 p))
      l0' l0' k' with _ | s <;> rw [hloop] at hrun
  · simp at hrun
  simp only [Option.some_bind] at hrun
  obtain ⟨a3, l3, g3⟩ := s
  rcases hv2 : rd a3 l3 with _ | v2 <;> rw [hv2] at hrun
  · simp at hrun
  simp only [Option.some_bind] at hrun
  rcases hw4 : wr a3 g3 v2 with _ | a4 <;> rw [hw4] at hrun
  · simp at hrun
  simp only [Option.some_bind] at hrun
  rcases hw5 : wr a4 l3 p with _ | a5' <;> rw [hw5] at hrun
  · simp at hrun
  simp only [Option.some_bind, Option.some.injEq, Prod.mk.injEq] at hrun
  obtain ⟨rfl, rfl, rfl, rfl⟩ := hrun
  obtain ⟨hg3len, rfl⟩ := wr_eq_some.mp hw4
  obtain ⟨hl3len, rfl⟩ := wr_eq_some.mp hw5
  simp only [rd] at hv hv2
  -- facts from the upward scan
  obtain ⟨hl0low, ⟨hl0lt, hl0stop⟩, hl0reg⟩ := scanLT_spec hscan
  have hl0mid : l0' ≤ mid := by
    by_contra hcon
    obtain ⟨hj4, habs⟩ := hl0reg mid (by omega) (by omega)
    have hpm : a[mid] = p := hma
    omega
  -- facts from the downward scan, on the post-sentinel array
  obtain ⟨hk'lt, ⟨hklen2, hkval⟩, hkreg⟩ := scanDownGE_spec hk
  have hlen2 : ((a.set mid v).set l0' (sub1 p)).length = a.length := by
    simp [List.length_set]
  -- the multiset of the virtual array after the two sentinel writes,
  -- with the pivot restored at the gap, is that of the input
  have hvirt : (↑(((a.set mid v).set l0' (sub1 p)).set l0' p) : Multiset Int) =
      (↑a : Multiset Int) := by
    rw [List.set_set]
    have hvl0 : a[l0']? = some v := hv
    have hmid' : a[mid]? = some p := by
      rw [List.getElem?_eq_getElem hmlen, hma]
    exact msSwap hmid' hvl0
  by_cases hcase : l0' ≤ k'
  · -- the gap loop runs from l0' up to k'
    have inv1 : ∀ j u, low ≤ j → j < l0' →
        ((a.set mid v).set l0' (sub1 p))[j]? = some u → u < p := by
      intro j u hj1 hj2 hj3
      rw [List.getElem?_set_ne (by omega : l0' ≠ j),
        List.getElem?_set_ne (by omega : mid ≠ j)] at hj3
      obtain ⟨hj4, hj5⟩ := hl0reg j hj1 hj2
      rw [getElem?_val_of hj4 hj3] at hj5
      exact hj5
    have inv2 : ∀ j u, l0' ≤ j → j < l0' →
        ((a.set mid v).set l0' (sub1 p))[j]? = some u → p ≤ u := by
      intro j u hj1 hj2
      omega
    have inv3 : ∀ j u, k' < j → j ≤ high →
        ((a.set mid v).set l0' (sub1 p))[j]? = some u → p ≤ u := by
      intro j u hj1 hj2 hj3
      obtain ⟨hj4, hj5⟩ := hkreg j hj1 (by omega)
      rw [getElem?_val_of hj4 hj3] at hj5
      exact hj5
    obtain ⟨rfl, c2, c3, c4, c5, c6, c7, c8, c9⟩ :=
      partLoopLT_post hloop (le_refl _) hcase (by omega) inv1 inv2 inv3
    have hl3low : low ≤ l3 := by omega
    have hl3high : l3 ≤ high := by omega
    refine ⟨hl3low, hl3high, by simp [List.length_set]; omega, ?_, ?_, ?_,
      ?_, ?_⟩
    · -- a5[low..lp) < p
      intro j u hj1 hj2 hj3
      rw [List.getElem?_set_ne (by omega : l3 ≠ j),
        List.getElem?_set_ne (by omega : g3 ≠ j)] at hj3
      exact c5 j u hj1 hj2 hj3
    · -- a5[lp] = p
      exact List.getElem?_set_eq_of_lt p (by simp [List.length_set]; omega)
    · -- a5(lp..high] ≥ p
      intro j u hj1 hj2 hj3
      rw [List.getElem?_set_ne (by omega : l3 ≠ j)] at hj3
      by_cases hjk : j = g3
      · rw [hjk, List.getElem?_set_eq_of_lt v2 hg3len] at hj3
        have hu : u = v2 := ((Option.some.injEq _ _).mp hj3).symm
        rw [hu]
        exact c6 l3 v2 (le_refl _) (by omega) hv2
      · rw [List.getElem?_set_ne (by omega : g3 ≠ j)] at hj3
        rcases lt_or_gt_of_ne hjk with hjk' | hjk'
        · exact c6 j u (by omega) hjk' hj3
        · exact c7 j u hjk' hj2 hj3
    · -- frame outside [low, high]
      intro j hj
      rw [List.getElem?_set_ne (by omega : l3 ≠ j),
        List.getElem?_set_ne (by omega : g3 ≠ j),
        c8 j (by omega),
        List.getElem?_set_ne (by omega : l0' ≠ j),
        List.getElem?_set_ne (by omega : mid ≠ j)]
    · -- multiset preservation
      have hms2 : (↑((a3.set g3 v2).set l3 p) : Multiset Int) =
          (↑(a3.set g3 p) : Multiset Int) := by
        by_cases hlk : l3 = g3
        · rw [hlk, List.set_set]
        · have ha3k : a3[g3]? = some a3[g3] :=
            List.getElem?_eq_getElem hg3len
          have e1 := @msSet a3 g3 (a3[g3]) ha3k v2
          have ha3kv : (a3.set g3 v2)[l3]? = some v2 := by
            rw [List.getElem?_set_ne (by omega : g3 ≠ l3)]
            exact hv2
          have e2 := @msSet (a3.set g3 v2) l3 v2 ha3kv p
          have e3 := @msSet a3 g3 (a3[g3]) ha3k p
          have key : (↑((a3.set g3 v2).set l3 p) : Multiset Int) +
              ({v2} + {a3[g3]}) =
              (↑(a3.set g3 p) : Multiset Int) +
              ({v2} + {a3[g3]}) := by
            calc (↑((a3.set g3 v2).set l3 p) : Multiset Int) +
                ({v2} + {a3[g3]})
                = ((↑((a3.set g3 v2).set l3 p) : Multiset Int) + {v2}) +
                  {a3[g3]} := by abel
              _ = ((↑(a3.set g3 v2) : Multiset Int) + {p}) +
                  {a3[g3]} := by rw [e2]
              _ = ((↑(a3.set g3 v2) : Multiset Int) + {a3[g3]}) +
                  {p} := by abel
              _ = ((↑a3 : Multiset Int) + {v2}) + {p} := by rw [e1]
              _ = ((↑a3 : Multiset Int) + {p}) + {v2} := by abel
              _ = ((↑(a3.set g3 p) : Multiset Int) + {a3[g3]}) +
                  {v2} := by rw [e3]
              _ = (↑(a3.set g3 p) : Multiset Int) +
                  ({v2} + {a3[g3]}) := by abel
          exact add_right_cancel key
      rw [hms2, c9, hvirt]
  · -- the downward scan stopped below the gap: the loop body never runs
    push_neg at hcase
    have hfar : partLoopLT p (k' + 1) ((a.set mid v).set l0' (sub1 p))
        l0' l0' k' = some ((a.set mid v).set l0' (sub1 p), l0', l0') := by
      unfold partLoopLT
      rw [if_neg (by omega)]
    rw [hfar] at hloop
    simp only [Option.some.injEq, Prod.mk.injEq] at hloop
    obtain ⟨rfl, rfl, rfl⟩ := hloop
    have hmid' : a[mid]? = some p := by
      rw [List.getElem?_eq_getElem hmlen, hma]
    have hl0len' : l0' < a.length := hl0lt
    refine ⟨hl0low, by omega, by simp [List.length_set], ?_, ?_, ?_, ?_, ?_⟩
    · -- a5[low..l0') < p
      intro j u hj1 hj2 hj3
      rw [List.set_set, List.set_set,
        List.getElem?_set_ne (by omega : l0' ≠ j),
        List.getElem?_set_ne (by omega : mid ≠ j)] at hj3
      obtain ⟨hj4, hj5⟩ := hl0reg j hj1 hj2
      rw [getElem?_val_of hj4 hj3] at hj5
      exact hj5
    · -- a5[l0'] = p
      rw [List.set_set, List.set_set]
      exact List.getElem?_set_eq_of_lt p (by simp [List.length_set]; omega)
    · -- a5(l0'..high] ≥ p
      intro j u hj1 hj2 hj3
      rw [List.set_set, List.set_set,
        List.getElem?_set_ne (by omega : l0' ≠ j)] at hj3
      obtain ⟨hj4, hj5⟩ := hkreg j (by omega) (by omega)
      have hj3' : ((a.set mid v).set l0' (sub1 p))[j]? = some u := by
        rw [List.getElem?_set_ne (by omega : l0' ≠ j)]
        exact hj3
      rw [getElem?_val_of hj4 hj3'] at hj5
      exact hj5
    · -- frame outside [low, high]
      intro j hj
      rw [List.set_set, List.set_set,
        List.getElem?_set_ne (by omega : l0' ≠ j),
        List.getElem?_set_ne (by omega : mid ≠ j)]
    · -- multiset preservation
      rw [List.set_set, List.set_set]
      exact msSwap hmid' hv

/-! ## Claim C5 — main-partition post-state and pivot skipping -/

/-- Claim C5: whenever the main branchless Lomuto partition runs to
completion on `[low, high]` with pivot `p = a[mid]`, then after the pivot
is restored into the gap at position `lp`: `a'[low..lp) < p`, `a'[lp] = p`,
and `a'(lp..high] ≥ p`; the subsequent adjustments (lines 768-770) return
`g = lp + 1` exactly when `lp < high` (else `g = lp`) and decrement `l` to
`lp - 1` exactly when `lp > low` (else `l = lp`), so the pivot position
`lp` belongs to neither recursive side. -/
theorem c5_main_partition_post (sub1 : Int → Int) (a : List Int)
    (low high mid : Nat) (p : Int) (hmid : rd a mid = some p)
    (hlm : low ≤ mid) (hmh : mid ≤ high) (hh : high < a.length)
    (b : List Int) (l g : Nat)
    (hrun : partitionMain sub1 a low high mid = some (b, l, g)) :
    ∃ lp l0 k, partitionCore sub1 a low high mid = some (b, lp, l0, k) ∧
      low ≤ lp ∧ lp ≤ high ∧
      (∀ j v, low ≤ j → j < lp → b[j]? = some v → v < p) ∧
      b[lp]? = some p ∧
      (∀ j v, lp < j → j ≤ high → b[j]? = some v → p ≤ v) ∧
      g = (if lp < high then lp + 1 else lp) ∧
      l = (if low < lp then lp - 1 else lp) := by
  unfold partitionMain at hrun
  simp only [Option.bind_eq_bind] at hrun
  rw [Option.bind_eq_some] at hrun
  obtain ⟨⟨a5, lp, l0, k⟩, hcore, hrest⟩ := hrun
  simp only [Option.some.injEq, Prod.mk.injEq] at hrest
  obtain ⟨rfl, hl, hg⟩ := hrest
  obtain ⟨p1, p2, -, p4, p5, p6, -, -⟩ :=
    partitionCore_post hmid hlm hmh hh hcore
  refine ⟨lp, l0, k, hcore, p1, p2, p4, p5, p6, ?_, ?_⟩
  · rw [← hg]
    split_ifs <;> omega
  · rw [← hl]
    split_ifs <;> omega

/-- Witness for `c5_main_partition_post` on a concrete 9-element array with
pivot `a[4] = 8`. -/
theorem c5_main_partition_post_witness :
    ∃ lp l0 k, partitionCore (sub1W 8) [5, 1, 4, 2, 8, 3, 7, 2, 9] 0 8 4 =
        some ([5, 1, 4, 2, 3, 7, 2, 8, 9], lp, l0, k) ∧
      0 ≤ lp ∧ lp ≤ 8 ∧
      (∀ j v, 0 ≤ j → j < lp →
        ([5, 1, 4, 2, 3, 7, 2, 8, 9] : List Int)[j]? = some v → v < 8) ∧
      ([5, 1, 4, 2, 3, 7, 2, 8, 9] : List Int)[lp]? = some 8 ∧
      (∀ j v, lp < j → j ≤ 8 →
        ([5, 1, 4, 2, 3, 7, 2, 8, 9] : List Int)[j]? = some v → 8 ≤ v) ∧
      8 = (if lp < 8 then lp + 1 else lp) ∧
      6 = (if 0 < lp then lp - 1 else lp) :=
  c5_main_partition_post (sub1W 8) [5, 1, 4, 2, 8, 3, 7, 2, 9] 0 8 4 8
    (by decide) (by decide) (by decide) (by decide)
    [5, 1, 4, 2, 3, 7, 2, 8, 9] 6 8 (by decide)

/-! ## The partition-left gap loop -/

/-- The final gap restore `*gap = *l; *l = q` preserves the multiset of the
array with `q` virtually placed in the gap. -/
theorem msRestore {a3 : List Int} {l3 gp : Nat} {v2 q : Int}
    (hv2 : a3[l3]? = some v2) (hgp : gp < a3.length) :
    (↑((a3.set gp v2).set l3 q) : Multiset Int) =
      (↑(a3.set gp q) : Multiset Int) := by
  by_cases hlk : l3 = gp
  · rw [hlk, List.set_set]
  · have ha3k : a3[gp]? = some a3[gp] := List.getElem?_eq_getElem hgp
    have e1 := @msSet a3 gp (a3[gp]) ha3k v2
    have ha3kv : (a3.set gp v2)[l3]? = some v2 := by
      rw [List.getElem?_set_ne (by omega : gp ≠ l3)]
      exact hv2
    have e2 := @msSet (a3.set gp v2) l3 v2 ha3kv q
    have e3 := @msSet a3 gp (a3[gp]) ha3k q
    have key : (↑((a3.set gp v2).set l3 q) : Multiset Int) +
        ({v2} + {a3[gp]}) =
        (↑(a3.set gp q) : Multiset Int) + ({v2} + {a3[gp]}) := by
      calc (↑((a3.set gp v2).set l3 q) : Multiset Int) +
          ({v2} + {a3[gp]})
          = ((↑((a3.set gp v2).set l3 q) : Multiset Int) + {v2}) +
            {a3[gp]} := by abel
        _ = ((↑(a3.set gp v2) : Multiset Int) + {q}) + {a3[gp]} := by
            rw [e2]
        _ = ((↑(a3.set gp v2) : Multiset Int) + {a3[gp]}) + {q} := by
            abel
        _ = ((↑a3 : Multiset Int) + {v2}) + {q} := by rw [e1]
        _ = ((↑a3 : Multiset Int) + {q}) + {v2} := by abel
        _ = ((↑(a3.set gp q) : Multiset Int) + {a3[gp]}) + {v2} := by
            rw [e3]
        _ = (↑(a3.set gp q) : Multiset Int) + ({v2} + {a3[gp]}) := by
            abel
    exact add_right_cancel key

/-- Complete run of the partition-left gap loop: under the entry invariant
it returns, the left region holds only `h`, the middle region holds no `h`,
the floor `h ≤ _` is preserved, nothing at or beyond the bound `g` or below
the initial `l` moves, `l` strictly advances whenever `a[g] = h` and the
loop body runs, and the multiset with any value `q` virtually in the gap is
preserved. -/
theorem partLoopEQ_run {h : Int} {lo hi : Nat} :
    ∀ {fuel : Nat} {a : List Int} {l kk g : Nat},
      g - kk < fuel → lo ≤ l → l ≤ kk → kk ≤ g → g ≤ hi → hi < a.length →
      (∀ j v, lo ≤ j → j < l → a[j]? = some v → v = h) →
      (∀ j v, l ≤ j → j < kk → a[j]? = some v → v ≠ h) →
      (∀ j v, lo ≤ j → j ≤ hi → a[j]? = some v → h ≤ v) →
      ∃ a3 l3, partLoopEQ h fuel a l kk g = some (a3, l3, g) ∧
        l ≤ l3 ∧ l3 ≤ g ∧ a3.length = a.length ∧
        (∀ j v, lo ≤ j → j < l3 → a3[j]? = some v → v = h) ∧
        (∀ j v, l3 ≤ j → j < g → a3[j]? = some v → v ≠ h) ∧
        (∀ j v, lo ≤ j → j ≤ hi → a3[j]? = some v → h ≤ v) ∧
        (∀ j, j < l ∨ g ≤ j → a3[j]? = a[j]?) ∧
        (∀ vg, a[g]? = some vg → vg = h → kk < g → l < l3) ∧
        (∀ q, (↑(a3.set g q) : Multiset Int) = ↑(a.set kk q)) := by
  intro fuel
  induction fuel with
  | zero =>
    intro a l kk g hfuel
    omega
  | succ n ih =>
    intro a l kk g hfuel hlol hlk hkg hghi hhi inv1 inv2 inv3
    by_cases hkglt : kk < g
    case neg =>
      have hkgEq : kk = g := by omega
      subst hkgEq
      refine ⟨a, l, ?_, le_refl _, hlk, rfl, inv1, inv2, inv3,
        fun j hj => rfl, fun vg h1 h2 h3 => by omega, fun q => rfl⟩
      unfold partLoopEQ
      rw [if_neg (by omega)]
    case pos =>
      have hllen : l < a.length := by omega
      have hkklen : kk < a.length := by omega
      have hk1len : kk + 1 < a.length := by omega
      have hrdl : rd a l = some a[l] := by
        simp [rd, List.getElem?_eq_getElem hllen]
      have hwrk : wr a kk (a[l]) = some (a.set kk (a[l])) := by
        simp [wr, hkklen]
      have hrdk1 : rd (a.set kk (a[l])) (kk + 1) =
          some (a[kk + 1]) := by
        simp only [rd]
        rw [List.getElem?_set_ne (by omega : kk ≠ kk + 1)]
        exact List.getElem?_eq_getElem hk1len
      have hwrl : wr (a.set kk (a[l])) l (a[kk + 1]) =
          some ((a.set kk (a[l])).set l (a[kk + 1])) := by
        simp [wr, List.length_set, hllen]
      have hstep : partLoopEQ h (n + 1) a l kk g =
          partLoopEQ h n ((a.set kk (a[l])).set l (a[kk + 1]))
            (if (a[kk + 1]) = h then l + 1 else l) (kk + 1) g := by
        conv_lhs => rw [partLoopEQ]
        rw [if_pos hkglt, hrdl]
        simp only [Option.bind_eq_bind, Option.some_bind]
        rw [hwrk]
        simp only [Option.some_bind]
        rw [hrdk1]
        simp only [Option.some_bind]
        rw [hwrl]
        simp only [Option.some_bind]
      -- invariants for the recursive call
      have inv1' : ∀ j v, lo ≤ j →
          (j < if (a[kk + 1]) = h then l + 1 else l) →
          ((a.set kk (a[l])).set l (a[kk + 1]))[j]? = some v →
          v = h := by
        intro j v hj1 hj2 hj3
        by_cases hjl : j = l
        · rw [hjl, List.getElem?_set_eq_of_lt _ (by simp [List.length_set]; omega)] at hj3
          have hveq : v = a[kk + 1] :=
            ((Option.some.injEq _ _).mp hj3).symm
          split_ifs at hj2 with hc
          · rw [hveq, hc]
          · omega
        · have hjl2 : j < l := by split_ifs at hj2 <;> omega
          rw [List.getElem?_set_ne (by omega : l ≠ j),
            List.getElem?_set_ne (by omega : kk ≠ j)] at hj3
          exact inv1 j v hj1 hjl2 hj3
      have inv2' : ∀ j v,
          (if (a[kk + 1]) = h then l + 1 else l) ≤ j →
          j < kk + 1 →
          ((a.set kk (a[l])).set l (a[kk + 1]))[j]? = some v →
          v ≠ h := by
        intro j v hj1 hj2 hj3
        by_cases hjl : j = l
        · rw [hjl, List.getElem?_set_eq_of_lt _ (by simp [List.length_set]; omega)] at hj3
          have hveq : v = a[kk + 1] :=
            ((Option.some.injEq _ _).mp hj3).symm
          split_ifs at hj1 with hc
          · omega
          · rw [hveq]; exact hc
        · by_cases hjk : j = kk
          · rw [hjk, List.getElem?_set_ne (by omega : l ≠ kk),
              List.getElem?_set_eq_of_lt _ hkklen] at hj3
            have hveq : v = a[l] :=
              ((Option.some.injEq _ _).mp hj3).symm
            have hlk2 : l < kk := by omega
            rw [hveq]
            exact inv2 l _ (le_refl _) hlk2
              (List.getElem?_eq_getElem hllen)
          · have hjk2 : j < kk := by omega
            have hjl2 : l ≤ j := by split_ifs at hj1 <;> omega
            rw [List.getElem?_set_ne (by omega : l ≠ j),
              List.getElem?_set_ne (by omega : kk ≠ j)] at hj3
            exact inv2 j v (by omega) hjk2 hj3
      have inv3' : ∀ j v, lo ≤ j → j ≤ hi →
          ((a.set kk (a[l])).set l (a[kk + 1]))[j]? = some v →
          h ≤ v := by
        intro j v hj1 hj2 hj3
        by_cases hjl : j = l
        · rw [hjl, List.getElem?_set_eq_of_lt _ (by simp [List.length_set]; omega)] at hj3
          have hveq : v = a[kk + 1] :=
            ((Option.some.injEq _ _).mp hj3).symm
          rw [hveq]
          exact inv3 (kk + 1) _ (by omega) (by omega)
            (List.getElem?_eq_getElem hk1len)
        · by_cases hjk : j = kk
          · rw [hjk, List.getElem?_set_ne (by omega : l ≠ kk),
              List.getElem?_set_eq_of_lt _ hkklen] at hj3
            have hveq : v = a[l] :=
              ((Option.some.injEq _ _).mp hj3).symm
            rw [hveq]
            exact inv3 l _ (by omega) (by omega)
              (List.getElem?_eq_getElem hllen)
          · rw [List.getElem?_set_ne (by omega : l ≠ j),
              List.getElem?_set_ne (by omega : kk ≠ j)] at hj3
            exact inv3 j v hj1 hj2 hj3
      obtain ⟨a3, l3, hrec, c1, c2, c3, c4, c5, c6, c7, c8, c9⟩ :=
        ih (by omega) (by split_ifs <;> omega)
          (by split_ifs <;> omega) (by omega) hghi
          (by simp [List.length_set]; omega) inv1' inv2' inv3'
      refine ⟨a3, l3, by rw [hstep]; exact hrec, by split_ifs at c1 <;> omega,
        c2, by rw [c3]; simp [List.length_set], c4, c5, c6, ?_, ?_, ?_⟩
      · -- frame
        intro j hj
        have hj2 : j < (if (a[kk + 1]) = h then l + 1 else l) ∨
            g ≤ j := by
          rcases hj with hj | hj
          · left; split_ifs <;> omega
          · right; omega
        rw [c7 j hj2,
          List.getElem?_set_ne (by omega : l ≠ j),
          List.getElem?_set_ne (by omega : kk ≠ j)]
      · -- strict advance when a[g] = h
        intro vg hvg hvgh hkg2
        by_cases hlast : kk + 1 = g
        · have hvg2 : a[kk + 1]? = some vg := by rw [hlast]; exact hvg
          have hgval : a[kk + 1] = h := by
            rw [getElem?_val_of hk1len hvg2]; exact hvgh
          have hl2 : (if (a[kk + 1]) = h then l + 1 else l) =
              l + 1 := if_pos hgval
          rw [hl2] at c1
          omega
        · have hvg' : ((a.set kk (a[l])).set l
              (a[kk + 1]))[g]? = some vg := by
            rw [List.getElem?_set_ne (by omega : l ≠ g),
              List.getElem?_set_ne (by omega : kk ≠ g)]
            exact hvg
          have := c8 vg hvg' hvgh (by omega)
          have hll2 : l ≤ (if (a[kk + 1]) = h then l + 1 else l) := by
            split_ifs <;> omega
          omega
      · -- multiset with a virtual gap value
        intro q
        rw [c9 q]
        -- one loop step preserves the virtual multiset
        have hag : a[kk]? = some a[kk] := List.getElem?_eq_getElem hkklen
        have hs1 := @msSet a kk (a[kk]) hag (a[l])
        have hsetl : (a.set kk (a[l]))[l]? = some (a[l]) := by
          by_cases hlg : l = kk
          · subst hlg
            exact List.getElem?_set_eq_of_lt _ (by omega)
          · rw [List.getElem?_set_ne (by omega : kk ≠ l)]
            exact List.getElem?_eq_getElem hllen
        have hs2 := @msSet (a.set kk (a[l])) l (a[l]) hsetl
          (a[kk + 1])
        have ha2g1 : ((a.set kk (a[l])).set l
            (a[kk + 1]))[kk + 1]? = some (a[kk + 1]) := by
          rw [List.getElem?_set_ne (by omega : l ≠ kk + 1),
            List.getElem?_set_ne (by omega : kk ≠ kk + 1)]
          exact List.getElem?_eq_getElem hk1len
        have hs3 := @msSet ((a.set kk (a[l])).set l
          (a[kk + 1])) (kk + 1) (a[kk + 1]) ha2g1 q
        have hs4 := @msSet a kk (a[kk]) hag q
        have key : (↑(((a.set kk (a[l])).set l
            (a[kk + 1])).set (kk + 1) q) : Multiset Int) +
            ({a[kk + 1]} + {a[l]} + {a[kk]}) =
            (↑(a.set kk q) : Multiset Int) +
            ({a[kk + 1]} + {a[l]} + {a[kk]}) := by
          calc (↑(((a.set kk (a[l])).set l
              (a[kk + 1])).set (kk + 1) q) : Multiset Int) +
              ({a[kk + 1]} + {a[l]} + {a[kk]})
              = ((↑(((a.set kk (a[l])).set l
                  (a[kk + 1])).set (kk + 1) q) : Multiset Int) +
                {a[kk + 1]}) + {a[l]} + {a[kk]} := by
                  abel
            _ = ((↑((a.set kk (a[l])).set l
                  (a[kk + 1])) : Multiset Int) + {q}) +
                {a[l]} + {a[kk]} := by rw [hs3]
            _ = ((↑((a.set kk (a[l])).set l
                  (a[kk + 1])) : Multiset Int) + {a[l]}) +
                {a[kk]} + {q} := by abel
            _ = ((↑(a.set kk (a[l])) : Multiset Int) +
                {a[kk + 1]}) + {a[kk]} + {q} := by rw [hs2]
            _ = ((↑(a.set kk (a[l])) : Multiset Int) +
                {a[kk]}) + {a[kk + 1]} + {q} := by abel
            _ = ((↑a : Multiset Int) + {a[l]}) +
                {a[kk + 1]} + {q} := by rw [hs1]
            _ = ((↑a : Multiset Int) + {q}) +
                ({a[kk + 1]} + {a[l]}) := by abel
            _ = ((↑(a.set kk q) : Multiset Int) + {a[kk]}) +
                ({a[kk + 1]} + {a[l]}) := by rw [hs4]
            _ = (↑(a.set kk q) : Multiset Int) +
                ({a[kk + 1]} + {a[l]} + {a[kk]}) := by
                  abel
        exact add_right_cancel key

/-- Complete run of partition-left: under the driver's invariants (some
element of `[low, high]` equals `h`, no element is below `h`, and the
sentinel `h + 1` differs from `h`), `partitionLeft` succeeds and produces a
left block of elements equal to `h`, a right block of elements greater than
`h` starting at the returned `low2 > low`, touches nothing outside
`[low, high]`, and preserves the multiset. -/
theorem partitionLeft_run {add1 : Int → Int} {a : List Int} {low high : Nat}
    {h : Int} (hlh : low ≤ high) (hh : high < a.length)
    (jw : Nat) (hjw1 : low ≤ jw) (hjw2 : jw ≤ high)
    (hjw3 : rd a jw = some h)
    (hfloor : ∀ j v, low ≤ j → j ≤ high → rd a j = some v → h ≤ v)
    (hsent : add1 h ≠ h) :
    ∃ b low2, partitionLeft add1 a low high h = some (b, low2) ∧
      low < low2 ∧ low2 ≤ high + 1 ∧ b.length = a.length ∧
      (∀ j v, low ≤ j → j < low2 → b[j]? = some v → v = h) ∧
      (∀ j v, low2 ≤ j → j ≤ high → b[j]? = some v → h < v) ∧
      (∀ j, j < low ∨ high < j → b[j]? = a[j]?) ∧
      (↑b : Multiset Int) = ↑a := by
  obtain ⟨gp, hgscan, hjwgp, hgp2⟩ :=
    @scanDownGT_exists a h h jw hjw3 (le_refl h) (high + 1) (by omega)
      (by omega)
  obtain ⟨-, ⟨hgplen, hgple⟩, hgreg⟩ := scanDownGT_spec hgscan
  have hgpval : a[gp] = h := by
    have := hfloor gp (a[gp]) (by omega) (by omega)
      (List.getElem?_eq_getElem hgplen)
    omega
  have hrde : rd a gp = some (a[gp]) := by
    simp [rd, List.getElem?_eq_getElem hgplen]
  have hwr1 : wr a gp (add1 h) = some (a.set gp (add1 h)) := by
    simp [wr, hgplen]
  have ha1gp : (a.set gp (add1 h))[gp]? = some (add1 h) :=
    List.getElem?_set_eq_of_lt _ hgplen
  obtain ⟨l, hlscan, hlowl, hlgp⟩ :=
    @scanEq_exists (a.set gp (add1 h)) h (add1 h) gp ha1gp hsent
      ((a.set gp (add1 h)).length + 1) low (by omega)
      (by simp [List.length_set]; omega)
  obtain ⟨-, ⟨hllen1, hlne⟩, hlreg⟩ := scanEq_spec hlscan
  have hllen : l < a.length := by simp [List.length_set] at hllen1; omega
  have hwr2 : wr (a.set gp (add1 h)) gp (a[gp]) =
      some ((a.set gp (add1 h)).set gp (a[gp])) := by
    simp [wr, List.length_set, hgplen]
  have ha2 : (a.set gp (add1 h)).set gp (a[gp]) = a := by
    rw [List.set_set]
    exact set_rd_self (List.getElem?_eq_getElem hgplen)
  have hrdl : rd a l = some (a[l]) := by
    simp [rd, List.getElem?_eq_getElem hllen]
  -- region [low, l) of a is all h
  have hlregA : ∀ j v, low ≤ j → j < l → a[j]? = some v → v = h := by
    intro j v hj1 hj2 hj3
    obtain ⟨hj4, hj5⟩ := hlreg j hj1 hj2
    have hq : (a.set gp (add1 h))[j]? = some h := by
      rw [List.getElem?_eq_getElem hj4, hj5]
    rw [List.getElem?_set_ne (by omega : gp ≠ j)] at hq
    rw [hj3] at hq
    exact (Option.some.injEq _ _).mp hq
  -- the gap loop runs from l to gp
  obtain ⟨a3, l3, hloop, e1, e2, e3, eL, eM, eF, eFr, eAdv, eMs⟩ :=
    @partLoopEQ_run h low high (gp + 1) a l l gp (by omega) hlowl
      (le_refl _) hlgp (by omega) hh hlregA
      (fun j v hj1 hj2 hj3 => by omega) hfloor
  have hl3len : l3 < a.length := by omega
  have hl3len3 : l3 < a3.length := by omega
  have hgplen3 : gp < a3.length := by omega
  have hrdl3 : rd a3 l3 = some (a3[l3]) := by
    simp [rd, List.getElem?_eq_getElem hl3len3]
  have hwr4 : wr a3 gp (a3[l3]) =
      some (a3.set gp (a3[l3])) := by
    simp [wr, hgplen3]
  have hwr5 : wr (a3.set gp (a3[l3])) l3 (a[l]) =
      some ((a3.set gp (a3[l3])).set l3 (a[l])) := by
    simp [wr, List.length_set, hl3len3]
  have hblen : ((a3.set gp (a3[l3])).set l3 (a[l])).length =
      a.length := by simp [List.length_set]; omega
  refine ⟨(a3.set gp (a3[l3])).set l3 (a[l]),
    l3 + (if (a[l]) = h then 1 else 0), ?_, ?_, ?_, hblen, ?_, ?_,
    ?_, ?_⟩
  · -- the run equation
    unfold partitionLeft
    rw [hgscan]
    simp only [Option.bind_eq_bind, Option.some_bind]
    rw [hrde]
    simp only [Option.some_bind]
    rw [hwr1]
    simp only [Option.some_bind]
    rw [hlscan]
    simp only [Option.some_bind]
    rw [hwr2, ha2]
    simp only [Option.some_bind]
    rw [hrdl]
    simp only [Option.some_bind]
    rw [hloop]
    simp only [Option.some_bind]
    rw [hrdl3]
    simp only [Option.some_bind]
    rw [hwr4]
    simp only [Option.some_bind]
    rw [hwr5]
    simp only [Option.some_bind]
  · -- strict advance of low
    by_cases hp : (a[l]) = h
    · rw [if_pos hp]
      omega
    · have hlgp2 : l ≠ gp := by
        intro hEq
        apply hp
        have he : a[l] = a[gp] := by congr
        rw [he, hgpval]
      have hadv := eAdv (a[gp]) (List.getElem?_eq_getElem hgplen)
        hgpval (by omega)
      rw [if_neg hp]
      omega
  · -- low2 is at most high + 1
    split_ifs <;> omega
  · -- left block: everything below low2 equals h
    intro j v hj1 hj2 hj3
    by_cases hjl3 : j = l3
    · have hp : (a[l]) = h := by
        by_contra hp
        rw [if_neg hp] at hj2
        omega
      rw [hjl3,
        List.getElem?_set_eq_of_lt _ (by simp [List.length_set]; omega)]
        at hj3
      have hveq := (Option.some.injEq _ _).mp hj3
      rw [← hveq, hp]
    · have hjlt : j < l3 := by split_ifs at hj2 <;> omega
      rw [List.getElem?_set_ne (by omega : l3 ≠ j),
        List.getElem?_set_ne (by omega : gp ≠ j)] at hj3
      exact eL j v hj1 hjlt hj3
  · -- right block: everything from low2 through high exceeds h
    intro j v hj1 hj2 hj3
    by_cases hjl3 : j = l3
    · have hp : ¬ (a[l]) = h := by
        by_contra hp
        rw [if_pos hp] at hj1
        omega
      rw [hjl3,
        List.getElem?_set_eq_of_lt _ (by simp [List.length_set]; omega)]
        at hj3
      have hveq := (Option.some.injEq _ _).mp hj3
      have hfl := hfloor l (a[l]) (by omega) (by omega)
        (List.getElem?_eq_getElem hllen)
      omega
    · rw [List.getElem?_set_ne (by omega : l3 ≠ j)] at hj3
      by_cases hjgp : j = gp
      · have hl3gp : l3 < gp := by omega
        rw [hjgp, List.getElem?_set_eq_of_lt _ hgplen3] at hj3
        have hveq := (Option.some.injEq _ _).mp hj3
        have hne := eM l3 (a3[l3]) (le_refl _) hl3gp
          (List.getElem?_eq_getElem hl3len3)
        have hge := eF l3 (a3[l3]) (by omega) (by omega)
          (List.getElem?_eq_getElem hl3len3)
        omega
      · rw [List.getElem?_set_ne (by omega : gp ≠ j)] at hj3
        by_cases hjlt : j < gp
        · have hne := eM j v (by split_ifs at hj1 <;> omega) hjlt hj3
          have hge := eF j v (by omega) (by omega) hj3
          omega
        · have hfr : a3[j]? = a[j]? := eFr j (by omega)
          rw [hfr] at hj3
          obtain ⟨hj4, hj5⟩ := hgreg j (by omega) (by omega)
          have hje := getElem?_val_of hj4 hj3
          omega
  · -- frame outside [low, high]
    intro j hj
    rw [List.getElem?_set_ne (by omega : l3 ≠ j),
      List.getElem?_set_ne (by omega : gp ≠ j),
      eFr j (by omega)]
  · -- multiset preservation
    rw [msRestore (List.getElem?_eq_getElem hl3len3) hgplen3,
      eMs (a[l]),
      set_rd_self (List.getElem?_eq_getElem hllen)]

/-! ## Claim C7 — partition-left -/

/-- Claim C7: for every non-leftmost subrange where `h = a[low-1]` equals
at least one of `a[sl]`, `a[mid]`, `a[sr]` and no element of `[low, high]`
is less than `h`, the partition-left pass rearranges `[low, high]` into a
left block of elements equal to `h` followed by a right block of elements
greater than `h`, sets `low` to the first index of the right block (the
returned `low2`, with `low < low2`, so the continued range is strictly
shrunken), and touches nothing outside the subrange.  (In the embedded
driver `qSortAux`, the branch following `partitionLeft` returns the array
exactly when `low2 ≥ high` and otherwise re-enters the loop on
`[low2, high]`, as in lines 692-700 of the source.) -/
theorem c7_partition_left (add1 : Int → Int) (a : List Int)
    (low high sl mid sr : Nat) (h : Int)
    (hlh : low ≤ high) (hh : high < a.length)
    (hsl1 : low ≤ sl) (hsl2 : sl ≤ high)
    (hmid1 : low ≤ mid) (hmid2 : mid ≤ high)
    (hsr1 : low ≤ sr) (hsr2 : sr ≤ high)
    (hmatch : rd a sl = some h ∨ rd a mid = some h ∨ rd a sr = some h)
    (hfloor : ∀ j v, low ≤ j → j ≤ high → rd a j = some v → h ≤ v)
    (hsent : add1 h ≠ h) :
    ∃ b low2, partitionLeft add1 a low high h = some (b, low2) ∧
      low < low2 ∧ low2 ≤ high + 1 ∧ b.length = a.length ∧
      (∀ j v, low ≤ j → j < low2 → b[j]? = some v → v = h) ∧
      (∀ j v, low2 ≤ j → j ≤ high → b[j]? = some v → h < v) ∧
      (∀ j, j < low ∨ high < j → b[j]? = a[j]?) ∧
      (↑b : Multiset Int) = ↑a := by
  rcases hmatch with hm | hm | hm
  · exact partitionLeft_run hlh hh sl hsl1 hsl2 hm hfloor hsent
  · exact partitionLeft_run hlh hh mid hmid1 hmid2 hm hfloor hsent
  · exact partitionLeft_run hlh hh sr hsr1 hsr2 hm hfloor hsent

/-- Witness for `c7_partition_left` on `[1, 3, 1, 2, 1, 1]` with subrange
`[1, 5]` and `h = a[0] = 1`. -/
theorem c7_partition_left_witness :
    ∃ b low2, partitionLeft (add1W 8) [1, 3, 1, 2, 1, 1] 1 5 1 =
        some (b, low2) ∧
      1 < low2 ∧ low2 ≤ 6 ∧ b.length = 6 ∧
      (∀ j v, 1 ≤ j → j < low2 → b[j]? = some v → v = 1) ∧
      (∀ j v, low2 ≤ j → j ≤ 5 → b[j]? = some v → 1 < v) ∧
      (∀ j, j < 1 ∨ 5 < j → b[j]? =
        ([1, 3, 1, 2, 1, 1] : List Int)[j]?) ∧
      (↑b : Multiset Int) = ↑([1, 3, 1, 2, 1, 1] : List Int) :=
  c7_partition_left (add1W 8) [1, 3, 1, 2, 1, 1] 1 5 2 2 4 1 (by decide)
    (by decide) (by decide) (by decide) (by decide) (by decide) (by decide)
    (by decide) (Or.inl (by decide))
    (by
      intro j v h1 h2 h3
      interval_cases j <;> simp [rd] at h3 <;> omega)
    (by decide)

/-! ## Insertion sort lemmas -/

theorem insShift_ms {t : Int} {low : Nat} :
    ∀ {j1 : Nat} {a a1 : List Int} {j1f : Nat},
      insShift t low a j1 = some (a1, j1f) → j1 < a.length →
      j1f ≤ j1 ∧ a1.length = a.length ∧
      ∀ q, (↑(a1.set j1f q) : Multiset Int) = ↑(a.set j1 q) := by
  intro j1
  induction j1 with
  | zero =>
    intro a a1 j1f hrun hlen
    unfold insShift at hrun
    simp only [Option.some.injEq, Prod.mk.injEq] at hrun
    obtain ⟨rfl, rfl⟩ := hrun
    exact ⟨le_refl _, rfl, fun q => rfl⟩
  | succ n ih =>
    intro a a1 j1f hrun hlen
    unfold insShift at hrun
    split_ifs at hrun with hlow
    · simp only [Option.some.injEq, Prod.mk.injEq] at hrun
      obtain ⟨rfl, rfl⟩ := hrun
      exact ⟨le_refl _, rfl, fun q => rfl⟩
    · rcases hv : rd a n with _ | v <;> rw [hv] at hrun
      · simp at hrun
      simp only [Option.bind_eq_bind, Option.some_bind] at hrun
      split_ifs at hrun with htv
      · rcases hw : wr a (n + 1) v with _ | a2 <;> rw [hw] at hrun
        · simp at hrun
        simp only [Option.some_bind] at hrun
        obtain ⟨hn1len, rfl⟩ := wr_eq_some.mp hw
        simp only [rd] at hv
        have hnlen : n < a.length := by omega
        obtain ⟨c1, c2, c3⟩ := ih hrun (by simp [List.length_set]; omega)
        refine ⟨by omega, by rw [c2]; simp [List.length_set], ?_⟩
        intro q
        rw [c3 q]
        -- one shift step: positions n ↦ q, n+1 ↦ a[n] vs n+1 ↦ q
        have han : a[n]? = some v := hv
        have han1 : a[n + 1]? = some a[n + 1] :=
          List.getElem?_eq_getElem hn1len
        have hs1 := @msSet a (n + 1) (a[n + 1]) han1 v
        have hsetn : (a.set (n + 1) v)[n]? = some v := by
          rw [List.getElem?_set_ne (by omega : n + 1 ≠ n)]
          exact hv
        have hs2 := @msSet (a.set (n + 1) v) n v hsetn q
        have hs3 := @msSet a (n + 1) (a[n + 1]) han1 q
        have key : (↑((a.set (n + 1) v).set n q) : Multiset Int) +
            ({v} + {a[n + 1]}) =
            (↑(a.set (n + 1) q) : Multiset Int) +
            ({v} + {a[n + 1]}) := by
          calc (↑((a.set (n + 1) v).set n q) : Multiset Int) +
              ({v} + {a[n + 1]})
              = ((↑((a.set (n + 1) v).set n q) : Multiset Int) + {v}) +
                {a[n + 1]} := by abel
            _ = ((↑(a.set (n + 1) v) : Multiset Int) + {q}) +
                {a[n + 1]} := by rw [hs2]
            _ = ((↑(a.set (n + 1) v) : Multiset Int) + {a[n + 1]}) +
                {q} := by abel
            _ = ((↑a : Multiset Int) + {v}) + {q} := by rw [hs1]
            _ = ((↑a : Multiset Int) + {q}) + {v} := by abel
            _ = ((↑(a.set (n + 1) q) : Multiset Int) + {a[n + 1]}) +
                {v} := by rw [hs3]
            _ = (↑(a.set (n + 1) q) : Multiset Int) +
                ({v} + {a[n + 1]}) := by abel
        exact add_right_cancel key
      · simp only [Option.some.injEq, Prod.mk.injEq] at hrun
        obtain ⟨rfl, rfl⟩ := hrun
        exact ⟨le_refl _, rfl, fun q => rfl⟩

theorem iSortLeftAux_props {bail : Bool} {low r : Nat} :
    ∀ {fuel : Nat} {a : List Int} {i moves : Nat}
      {res : Bool × Nat × List Int},
      iSortLeftAux bail low r fuel a i moves = some res →
      (bail = false → res.1 = true) ∧
      (res.1 = false → bail = true ∧ 8 < res.2.1) ∧
      (↑res.2.2 : Multiset Int) = ↑a := by
  intro fuel
  induction fuel with
  | zero =>
    intro a i moves res hrun
    simp [iSortLeftAux] at hrun
  | succ n ih =>
    intro a i moves res hrun
    unfold iSortLeftAux at hrun
    split_ifs at hrun with hir
    · rcases ht : rd a i with _ | t <;> rw [ht] at hrun
      · simp at hrun
      simp only [Option.bind_eq_bind, Option.some_bind] at hrun
      rcases hsh : insShift t low a i with _ | s <;> rw [hsh] at hrun
      · simp at hrun
      simp only [Option.some_bind] at hrun
      obtain ⟨a1, j1f⟩ := s
      rcases hw : wr a1 j1f t with _ | a2 <;> rw [hw] at hrun
      · simp at hrun
      simp only [Option.some_bind] at hrun
      obtain ⟨hjlen, rfl⟩ := wr_eq_some.mp hw
      simp only [rd] at ht
      have hilen : i < a.length := (List.getElem?_eq_some.mp ht).1
      obtain ⟨-, -, hms⟩ := insShift_ms hsh hilen
      have hmsEq : (↑(a1.set j1f t) : Multiset Int) = ↑a := by
        rw [hms t, set_rd_self ht]
      split_ifs at hrun with hbail
      · simp only [Option.some.injEq] at hrun
        rw [← hrun]
        exact ⟨fun hb => by rw [hb] at hbail; simp at hbail,
          fun hfalse => ⟨hbail.1, hbail.2⟩, hmsEq⟩
      · obtain ⟨q1, q2, q3⟩ := ih hrun
        exact ⟨q1, q2, by rw [q3, hmsEq]⟩
    · simp only [Option.some.injEq] at hrun
      rw [← hrun]
      exact ⟨fun hb => rfl, fun hfalse => by simp at hfalse, rfl⟩

theorem pairShiftA_ms {ey : Int} :
    ∀ {c0 : Nat} {a a1 : List Int} {d : Nat},
      pairShiftA ey a c0 = some (a1, d) →
      d < c0 ∧ a1.length = a.length ∧
      ∀ x y, (↑((a1.set (d + 1) x).set (d + 2) y) : Multiset Int) =
        ↑((a.set c0 x).set (c0 + 1) y) := by
  intro c0
  induction c0 with
  | zero =>
    intro a a1 d hrun
    simp [pairShiftA] at hrun
  | succ c ih =>
    intro a a1 d hrun
    unfold pairShiftA at hrun
    rcases hv : rd a c with _ | v <;> rw [hv] at hrun
    · simp at hrun
    simp only [Option.bind_eq_bind, Option.some_bind] at hrun
    split_ifs at hrun with hey
    · rcases hw : wr a (c + 2) v with _ | a2 <;> rw [hw] at hrun
      · simp at hrun
      simp only [Option.some_bind] at hrun
      obtain ⟨hc2len, rfl⟩ := wr_eq_some.mp hw
      simp only [rd] at hv
      have hclen : c < a.length := by omega
      have hc1len : c + 1 < a.length := by omega
      obtain ⟨c1, c2, c3⟩ := ih hrun
      refine ⟨by omega, by rw [c2]; simp [List.length_set], ?_⟩
      intro x y
      rw [c3 x y]
      -- one shift step of the first pair scan
      have hac1 : a[c + 1]? = some a[c + 1] :=
        List.getElem?_eq_getElem hc1len
      have hac2 : a[c + 2]? = some a[c + 2] :=
        List.getElem?_eq_getElem hc2len
      have hs1 := @msSet a (c + 2) (a[c + 2]) hac2 v
      have hsc : (a.set (c + 2) v)[c]? = some v := by
        rw [List.getElem?_set_ne (by omega : c + 2 ≠ c)]
        exact hv
      have hs2 := @msSet (a.set (c + 2) v) c v hsc x
      have hsc1 : ((a.set (c + 2) v).set c x)[c + 1]? =
          some a[c + 1] := by
        rw [List.getElem?_set_ne (by omega : c ≠ c + 1),
          List.getElem?_set_ne (by omega : c + 2 ≠ c + 1)]
        exact hac1
      have hs3 := @msSet ((a.set (c + 2) v).set c x) (c + 1)
        (a[c + 1]) hsc1 y
      have hr1 := @msSet a (c + 1) (a[c + 1]) hac1 x
      have hrc2 : (a.set (c + 1) x)[c + 2]? = some a[c + 2] := by
        rw [List.getElem?_set_ne (by omega : c + 1 ≠ c + 2)]
        exact hac2
      have hr2 := @msSet (a.set (c + 1) x) (c + 2) (a[c + 2])
        hrc2 y
      have key : (↑(((a.set (c + 2) v).set c x).set (c + 1) y) :
          Multiset Int) + ({a[c + 1]} + {v} + {a[c + 2]}) =
          (↑((a.set (c + 1) x).set (c + 2) y) : Multiset Int) +
          ({a[c + 1]} + {v} + {a[c + 2]}) := by
        calc (↑(((a.set (c + 2) v).set c x).set (c + 1) y) :
            Multiset Int) + ({a[c + 1]} + {v} + {a[c + 2]})
            = ((↑(((a.set (c + 2) v).set c x).set (c + 1) y) :
                Multiset Int) + {a[c + 1]}) + {v} +
              {a[c + 2]} := by abel
          _ = ((↑((a.set (c + 2) v).set c x) : Multiset Int) + {y}) +
              {v} + {a[c + 2]} := by rw [hs3]
          _ = ((↑((a.set (c + 2) v).set c x) : Multiset Int) + {v}) +
              {a[c + 2]} + {y} := by abel
          _ = ((↑(a.set (c + 2) v) : Multiset Int) + {x}) +
              {a[c + 2]} + {y} := by rw [hs2]
          _ = ((↑(a.set (c + 2) v) : Multiset Int) + {a[c + 2]}) +
              {x} + {y} := by abel
          _ = ((↑a : Multiset Int) + {v}) + {x} + {y} := by rw [hs1]
          _ = ((↑a : Multiset Int) + {x}) + ({y} + {v}) := by abel
          _ = ((↑(a.set (c + 1) x) : Multiset Int) + {a[c + 1]}) +
              ({y} + {v}) := by rw [hr1]
          _ = ((↑(a.set (c + 1) x) : Multiset Int) + {y}) +
              ({a[c + 1]} + {v}) := by abel
          _ = ((↑((a.set (c + 1) x).set (c + 2) y) : Multiset Int) +
              {a[c + 2]}) + ({a[c + 1]} + {v}) := by
                rw [hr2]
          _ = (↑((a.set (c + 1) x).set (c + 2) y) : Multiset Int) +
              ({a[c + 1]} + {v} + {a[c + 2]}) := by abel
      exact add_right_cancel key
    · simp only [Option.some.injEq, Prod.mk.injEq] at hrun
      obtain ⟨rfl, rfl⟩ := hrun
      exact ⟨by omega, rfl, fun x y => rfl⟩

theorem pairShiftB_ms {ex : Int} :
    ∀ {c0 : Nat} {a a1 : List Int} {d : Nat},
      pairShiftB ex a c0 = some (a1, d) →
      d < c0 ∧ a1.length = a.length ∧
      ∀ x, (↑(a1.set (d + 1) x) : Multiset Int) = ↑(a.set c0 x) := by
  intro c0
  induction c0 with
  | zero =>
    intro a a1 d hrun
    simp [pairShiftB] at hrun
  | succ c ih =>
    intro a a1 d hrun
    unfold pairShiftB at hrun
    rcases hv : rd a c with _ | v <;> rw [hv] at hrun
    · simp at hrun
    simp only [Option.bind_eq_bind, Option.some_bind] at hrun
    split_ifs at hrun with hex
    · rcases hw : wr a (c + 1) v with _ | a2 <;> rw [hw] at hrun
      · simp at hrun
      simp only [Option.some_bind] at hrun
      obtain ⟨hc1len, rfl⟩ := wr_eq_some.mp hw
      simp only [rd] at hv
      have hclen : c < a.length := by omega
      obtain ⟨c1, c2, c3⟩ := ih hrun
      refine ⟨by omega, by rw [c2]; simp [List.length_set], ?_⟩
      intro x
      rw [c3 x]
      have hac1 : a[c + 1]? = some a[c + 1] :=
        List.getElem?_eq_getElem hc1len
      have hs1 := @msSet a (c + 1) (a[c + 1]) hac1 v
      have hsc : (a.set (c + 1) v)[c]? = some v := by
        rw [List.getElem?_set_ne (by omega : c + 1 ≠ c)]
        exact hv
      have hs2 := @msSet (a.set (c + 1) v) c v hsc x
      have hr1 := @msSet a (c + 1) (a[c + 1]) hac1 x
      have key : (↑((a.set (c + 1) v).set c x) : Multiset Int) +
          ({v} + {a[c + 1]}) =
          (↑(a.set (c + 1) x) : Multiset Int) +
          ({v} + {a[c + 1]}) := by
        calc (↑((a.set (c + 1) v).set c x) : Multiset Int) +
            ({v} + {a[c + 1]})
            = ((↑((a.set (c + 1) v).set c x) : Multiset Int) + {v}) +
              {a[c + 1]} := by abel
          _ = ((↑(a.set (c + 1) v) : Multiset Int) + {x}) +
              {a[c + 1]} := by rw [hs2]
          _ = ((↑(a.set (c + 1) v) : Multiset Int) + {a[c + 1]}) +
              {x} := by abel
          _ = ((↑a : Multiset Int) + {v}) + {x} := by rw [hs1]
          _ = ((↑a : Multiset Int) + {x}) + {v} := by abel
          _ = ((↑(a.set (c + 1) x) : Multiset Int) + {a[c + 1]}) +
              {v} := by rw [hr1]
          _ = (↑(a.set (c + 1) x) : Multiset Int) +
              ({v} + {a[c + 1]}) := by abel
      exact add_right_cancel key
    · simp only [Option.some.injEq, Prod.mk.injEq] at hrun
      obtain ⟨rfl, rfl⟩ := hrun
      exact ⟨by omega, rfl, fun x => rfl⟩

theorem pairAux_props {bail : Bool} {r : Nat} :
    ∀ {fuel : Nat} {a : List Int} {i moves : Nat}
      {res : Bool × Nat × List Int},
      pairAux bail r fuel a i moves = some res →
      (bail = false → res.1 = true) ∧
      (res.1 = false → bail = true ∧ 8 < res.2.1) ∧
      (↑res.2.2 : Multiset Int) = ↑a := by
  intro fuel
  induction fuel with
  | zero =>
    intro a i moves res hrun
    simp [pairAux] at hrun
  | succ n ih =>
    intro a i moves res hrun
    unfold pairAux at hrun
    split_ifs at hrun with hir
    · rcases hx : rd a i with _ | ex0 <;> rw [hx] at hrun
      · simp at hrun
      simp only [Option.bind_eq_bind, Option.some_bind] at hrun
      rcases hy : rd a (i + 1) with _ | ey0 <;> rw [hy] at hrun
      · simp at hrun
      simp only [Option.some_bind] at hrun
      rcases hA : pairShiftA (if ey0 < ex0 then ex0 else ey0) a i
        with _ | s1 <;> rw [hA] at hrun
      · simp at hrun
      simp only [Option.some_bind] at hrun
      rcases hw2 : wr s1.1 (s1.2 + 2) (if ey0 < ex0 then ex0 else ey0)
        with _ | a2 <;> rw [hw2] at hrun
      · simp at hrun
      simp only [Option.some_bind] at hrun
      rcases hB : pairShiftB (if ey0 < ex0 then ey0 else ex0) a2 (s1.2 + 1)
        with _ | s2 <;> rw [hB] at hrun
      · simp at hrun
      simp only [Option.some_bind] at hrun
      rcases hw4 : wr s2.1 (s2.2 + 1) (if ey0 < ex0 then ey0 else ex0)
        with _ | a4 <;> rw [hw4] at hrun
      · simp at hrun
      simp only [Option.some_bind] at hrun
      obtain ⟨a1, d⟩ := s1
      obtain ⟨a3, d2⟩ := s2
      obtain ⟨hd2len, rfl⟩ := wr_eq_some.mp hw2
      obtain ⟨hd21len, rfl⟩ := wr_eq_some.mp hw4
      dsimp only at hrun hA hB hd2len hd21len
      simp only [rd] at hx hy
      have hilen : i < a.length := (List.getElem?_eq_some.mp hx).1
      have hi1len : i + 1 < a.length := (List.getElem?_eq_some.mp hy).1
      obtain ⟨-, hAlen, hAms⟩ := pairShiftA_ms hA
      obtain ⟨-, hBlen, hBms⟩ := pairShiftB_ms hB
      -- the whole pair insertion step preserves the multiset
      have hstepms : (↑((a3.set (d2 + 1)
          (if ey0 < ex0 then ey0 else ex0))) : Multiset Int) = ↑a := by
        rw [hBms (if ey0 < ex0 then ey0 else ex0),
          List.set_comm _ _ _ (by omega : d + 2 ≠ d + 1),
          hAms (if ey0 < ex0 then ey0 else ex0)
            (if ey0 < ex0 then ex0 else ey0)]
        have hm1 := @msSet a i (a[i]) (List.getElem?_eq_getElem
          hilen) (if ey0 < ex0 then ey0 else ex0)
        have hm2p : (a.set i (if ey0 < ex0 then ey0 else ex0))[i + 1]? =
            some a[i + 1] := by
          rw [List.getElem?_set_ne (by omega : i ≠ i + 1)]
          exact List.getElem?_eq_getElem hi1len
        have hm2 := @msSet (a.set i (if ey0 < ex0 then ey0 else ex0))
          (i + 1) (a[i + 1]) hm2p (if ey0 < ex0 then ex0 else ey0)
        have hxy : ({(if ey0 < ex0 then ey0 else ex0 : Int)} :
            Multiset Int) + {(if ey0 < ex0 then ex0 else ey0 : Int)} =
            {ex0} + {ey0} := by
          split_ifs with hsw
          · abel
          · rfl
        have hvx : a[i] = ex0 := getElem?_val_of hilen hx
        have hvy : a[i + 1] = ey0 := getElem?_val_of hi1len hy
        have key : (↑((a.set i (if ey0 < ex0 then ey0 else ex0)).set
            (i + 1) (if ey0 < ex0 then ex0 else ey0)) : Multiset Int) +
            ({a[i + 1]} + {a[i]}) =
            (↑a : Multiset Int) + ({a[i + 1]} + {a[i]}) := by
          calc (↑((a.set i (if ey0 < ex0 then ey0 else ex0)).set
              (i + 1) (if ey0 < ex0 then ex0 else ey0)) : Multiset Int) +
              ({a[i + 1]} + {a[i]})
              = ((↑((a.set i (if ey0 < ex0 then ey0 else ex0)).set
                  (i + 1) (if ey0 < ex0 then ex0 else ey0)) :
                  Multiset Int) + {a[i + 1]}) + {a[i]} := by
                    abel
            _ = ((↑(a.set i (if ey0 < ex0 then ey0 else ex0)) :
                Multiset Int) + {(if ey0 < ex0 then ex0 else ey0 : Int)}) +
                {a[i]} := by rw [hm2]
            _ = ((↑(a.set i (if ey0 < ex0 then ey0 else ex0)) :
                Multiset Int) + {a[i]}) +
                {(if ey0 < ex0 then ex0 else ey0 : Int)} := by abel
            _ = ((↑a : Multiset Int) +
                {(if ey0 < ex0 then ey0 else ex0 : Int)}) +
                {(if ey0 < ex0 then ex0 else ey0 : Int)} := by rw [hm1]
            _ = (↑a : Multiset Int) +
                ({(if ey0 < ex0 then ey0 else ex0 : Int)} +
                 {(if ey0 < ex0 then ex0 else ey0 : Int)}) := by abel
            _ = (↑a : Multiset Int) + ({ex0} + {ey0}) := by rw [hxy]
            _ = (↑a : Multiset Int) +
                ({a[i + 1]} + {a[i]}) := by
                  rw [hvx, hvy]; abel
        exact add_right_cancel key
      by_cases hbail : bail = true ∧
          8 < (moves + if ey0 < ex0 then 1 else 0) + (i + 1 - 2 - d2)
      · rw [if_pos hbail] at hrun
        simp only [Option.some.injEq] at hrun
        rw [← hrun]
        exact ⟨fun hb => by rw [hb] at hbail; simp at hbail,
          fun hfalse => ⟨hbail.1, hbail.2⟩, hstepms⟩
      · rw [if_neg hbail] at hrun
        obtain ⟨q1, q2, q3⟩ := ih hrun
        exact ⟨q1, q2, by rw [q3, hstepms]⟩
    · -- final odd-element insertion
      rcases hz : rd a r with _ | ez <;> rw [hz] at hrun
      · simp at hrun
      simp only [Option.bind_eq_bind, Option.some_bind] at hrun
      rcases hB : pairShiftB ez a r with _ | s <;> rw [hB] at hrun
      · simp at hrun
      simp only [Option.some_bind] at hrun
      obtain ⟨a1, d⟩ := s
      rcases hw : wr a1 (d + 1) ez with _ | a2 <;> rw [hw] at hrun
      · simp at hrun
      simp only [Option.some_bind, Option.some.injEq] at hrun
      obtain ⟨-, rfl⟩ := wr_eq_some.mp hw
      simp only [rd] at hz
      obtain ⟨-, -, hBms⟩ := pairShiftB_ms hB
      rw [← hrun]
      refine ⟨fun hb => rfl, fun hfalse => by simp at hfalse, ?_⟩
      rw [hBms ez, set_rd_self hz]

theorem iSort_props {bail leftmost : Bool} {a : List Int} {low high : Nat}
    {b : Bool} {a2 : List Int}
    (hrun : iSort bail leftmost a low high = some (b, a2)) :
    (bail = false → b = true) ∧ (↑a2 : Multiset Int) = ↑a := by
  unfold iSort at hrun
  split_ifs at hrun with hlm
  · simp only [Option.map_eq_some'] at hrun
    obtain ⟨res, haux, heq⟩ := hrun
    obtain ⟨q1, -, q3⟩ := iSortLeftAux_props haux
    simp only [Prod.mk.injEq] at heq
    obtain ⟨hb, ha⟩ := heq
    exact ⟨fun hf => by rw [← hb]; exact q1 hf, by rw [← ha]; exact q3⟩
  · rcases hs : skipAsc a high (high + 2) low with _ | s <;>
      rw [hs] at hrun
    · simp at hrun
    simp only [Option.bind_eq_bind, Option.some_bind] at hrun
    rcases s with _ | ds
    · simp only [Option.some.injEq, Prod.mk.injEq] at hrun
      obtain ⟨rfl, rfl⟩ := hrun
      exact ⟨fun hf => rfl, rfl⟩
    · simp only [Option.map_eq_some'] at hrun
      obtain ⟨res, haux, heq⟩ := hrun
      obtain ⟨q1, -, q3⟩ := pairAux_props haux
      simp only [Prod.mk.injEq] at heq
      obtain ⟨hb, ha⟩ := heq
      exact ⟨fun hf => by rw [← hb]; exact q1 hf, by rw [← ha]; exact q3⟩

/-! ## Claim C6 — the `iSort` bail-out contract -/

/-- Claim C6: for every call `iSort<Bail>(leftmost, low, high)`:
with `Bail = false` it returns `true`; with `Bail = true` either variant
returns `false` only when its accumulated move counter exceeds
`ASCENDING_THRESHOLD = 8`; whatever it returns, the partially-done work it
leaves in place is a multiset permutation of the pre-state; and the
dispatcher (`blipsort`, `cnt < 88`) calls `iSort` with `Bail = false`, so
by the first conjunct a `false` return never reaches `blipsort`'s caller
(inside `qSortAux` the two `Bail = true` results are pattern-matched and
both branches continue the sort — see the embedding of lines 787-796). -/
theorem c6_isort_bail_contract (sub1 add1 : Int → Int)
    (bail leftmost : Bool) (a : List Int) (low high : Nat) :
    (∀ b a2, iSort false leftmost a low high = some (b, a2) → b = true) ∧
    (∀ b a2, iSort bail leftmost a low high = some (b, a2) →
      (↑a2 : Multiset Int) = ↑a) ∧
    (∀ fuel i moves m a2,
      iSortLeftAux bail low high fuel a i moves = some (false, m, a2) →
      bail = true ∧ 8 < m) ∧
    (∀ fuel i moves m a2,
      pairAux bail high fuel a i moves = some (false, m, a2) →
      bail = true ∧ 8 < m) ∧
    (a.length < 88 →
      blipsort sub1 add1 a =
        (iSort false true a 0 ((a.length + 2 ^ 32 - 1) % 2 ^ 32)).map
          Prod.snd) := by
  refine ⟨?_, ?_, ?_, ?_, ?_⟩
  · intro b a2 hrun
    exact (iSort_props hrun).1 rfl
  · intro b a2 hrun
    exact (iSort_props hrun).2
  · intro fuel i moves m a2 hrun
    exact (iSortLeftAux_props hrun).2.1 rfl
  · intro fuel i moves m a2 hrun
    exact (pairAux_props hrun).2.1 rfl
  · intro hlen
    unfold blipsort
    rw [if_pos hlen]

/-- Witness for `c6_isort_bail_contract`: the `Bail = false` leftmost call
on `[3, 1, 2]` returns `true` with a permutation, and the `Bail = true`
leftmost run on the reverse-sorted 20-element array returns `false` with
its move counter at `10 > 8`. -/
theorem c6_isort_bail_contract_witness :
    (true = true ∧
      (↑([1, 2, 3] : List Int) : Multiset Int) =
        ↑([3, 1, 2] : List Int)) ∧
    (true = true ∧
      8 < (10 : Nat)) := by
  have hc := c6_isort_bail_contract (sub1W 8) (add1W 8) true true
    [3, 1, 2] 0 2
  have hc20 := c6_isort_bail_contract (sub1W 8) (add1W 8) true true
    ((List.range 20).reverse.map Int.ofNat) 0 19
  refine ⟨⟨hc.1 true [1, 2, 3] (by decide), ?_⟩, ?_⟩
  · exact hc.2.1 true [1, 2, 3] (by decide)
  · exact hc20.2.2.1 21 1 0 10
      [15, 16, 17, 18, 19, 14, 13, 12, 11, 10, 9, 8, 7, 6, 5, 4, 3, 2, 1, 0]
      (by decide)

/-! ## The swap-rotation loop -/

theorem rotLoop_run {mid low high : Nat} :
    ∀ {fuel : Nat} {a : List Int} {u q : Nat},
      u + q = low + high → u ≤ mid → 2 * mid ≤ low + high →
      high < a.length → low ≤ u → mid - u < fuel →
      ∃ a4, rotLoop mid fuel a u q = some a4 ∧ a4.length = a.length ∧
        (∀ i, u ≤ i → i < mid →
          a4[i]? = a[low + high - i]? ∧ a4[low + high - i]? = a[i]?) ∧
        (∀ j, (j < u ∨ (mid ≤ j ∧ j + mid ≤ low + high) ∨
          low + high - u < j) → a4[j]? = a[j]?) ∧
        (↑a4 : Multiset Int) = ↑a := by
  intro fuel
  induction fuel with
  | zero =>
    intro a u q h1 h2 h3 h4 h5 h6
    omega
  | succ n ih =>
    intro a u q h1 h2 h3 h4 h5 h6
    by_cases hum : u < mid
    case neg =>
      have huEq : u = mid := by omega
      refine ⟨a, ?_, rfl, fun i hi1 hi2 => by omega, fun j hj => rfl,
        rfl⟩
      unfold rotLoop
      rw [if_neg hum]
    case pos =>
      have hulen : u < a.length := by omega
      have hqlen : q < a.length := by omega
      have huq : u < q := by omega
      have hru : rd a u = some a[u] := by
        simp [rd, List.getElem?_eq_getElem hulen]
      have hrq : rd a q = some a[q] := by
        simp [rd, List.getElem?_eq_getElem hqlen]
      have hswap := swapIdx_some_of hru hrq
      obtain ⟨a4, hrec, hlen, hpairs, hframe, hms⟩ :=
        @ih ((a.set u (a[q])).set q (a[u])) (u + 1) (q - 1)
          (by omega) (by omega) h3 (by simp [List.length_set]; omega)
          (by omega) (by omega)
      have hq1 : q - 1 + 1 = q := by omega
      have huntouched : ∀ j : Nat, j ≠ u → j ≠ q →
          ((a.set u (a[q])).set q (a[u]))[j]? = a[j]? := by
        intro j hj1 hj2
        rw [List.getElem?_set_ne (Ne.symm hj2),
          List.getElem?_set_ne (Ne.symm hj1)]
      have hq2len : q < (a.set u (a[q])).length := by
        simp [List.length_set]; omega
      refine ⟨a4, ?_, by rw [hlen]; simp [List.length_set], ?_, ?_,
        hms.trans (msSwap hru hrq)⟩
      · unfold rotLoop
        rw [if_pos hum, hswap]
        simp only [Option.bind_eq_bind, Option.some_bind]
        exact hrec
      · intro i hi1 hi2
        by_cases hiu : i = u
        · subst hiu
          have hq' : low + high - i = q := by omega
          rw [hq']
          constructor
          · rw [hframe i (by omega),
              List.getElem?_set_ne (by omega : q ≠ i),
              List.getElem?_set_eq_of_lt _ hulen,
              List.getElem?_eq_getElem hqlen]
          · rw [hframe q (by omega),
              List.getElem?_set_eq_of_lt _ hq2len,
              List.getElem?_eq_getElem hulen]
        · obtain ⟨hp1, hp2⟩ := hpairs i (by omega) hi2
          rw [huntouched (low + high - i) (by omega) (by omega)] at hp1
          rw [huntouched i (by omega) (by omega)] at hp2
          exact ⟨hp1, hp2⟩
      · intro j hj
        rcases hj with hj | hj | hj
        · rw [hframe j (Or.inl (by omega)),
            huntouched j (by omega) (by omega)]
        · rw [hframe j (Or.inr (Or.inl (by omega))),
            huntouched j (by omega) (by omega)]
        · rw [hframe j (Or.inr (Or.inr (by omega))),
            huntouched j (by omega) (by omega)]

/-! ## Conditional-swap network blocks -/

theorem swapIdx_post {a : List Int} {i j : Nat} {vi vj : Int}
    (hne : i ≠ j) (hvi : rd a i = some vi) (hvj : rd a j = some vj) :
    ∃ b, swapIdx a i j = some b ∧ b.length = a.length ∧
      b[i]? = some vj ∧ b[j]? = some vi ∧
      (∀ k, k ≠ i → k ≠ j → b[k]? = a[k]?) ∧
      (↑b : Multiset Int) = (↑a : Multiset Int) := by
  obtain ⟨hi, -⟩ := rd_eq_some.mp hvi
  obtain ⟨hj, -⟩ := rd_eq_some.mp hvj
  have hj2 : j < (a.set i vj).length := by simp [List.length_set]; omega
  refine ⟨(a.set i vj).set j vi, ?_, by simp [List.length_set], ?_, ?_,
    ?_, msSwap hvi hvj⟩
  · exact swapIdx_some_of hvi hvj
  · rw [List.getElem?_set_ne (Ne.symm hne),
      List.getElem?_set_eq_of_lt _ hi]
  · rw [List.getElem?_set_eq_of_lt _ hj2]
  · intro k hk1 hk2
    rw [List.getElem?_set_ne (Ne.symm hk2),
      List.getElem?_set_ne (Ne.symm hk1)]

theorem net1_run {a : List Int} {cl sl : Nat} {vcl vsl : Int}
    (hne : cl ≠ sl) (hcl : rd a cl = some vcl) (hsl : rd a sl = some vsl) :
    ∃ b, net1 a cl sl = some b ∧ b.length = a.length ∧
      ∃ u1 u2, b[cl]? = some u1 ∧ b[sl]? = some u2 ∧ u1 ≤ u2 ∧
        ({u1} + {u2} : Multiset Int) = {vcl} + {vsl} ∧
        (∀ k, k ≠ cl → k ≠ sl → b[k]? = a[k]?) ∧
        (↑b : Multiset Int) = ↑a := by
  unfold net1
  rw [hsl, hcl]
  simp only [Option.bind_eq_bind, Option.some_bind]
  by_cases hlt : vsl < vcl
  · rw [if_pos hlt]
    obtain ⟨b, hb, hlen, hbi, hbj, hframe, hms⟩ :=
      swapIdx_post (Ne.symm hne) hsl hcl
    refine ⟨b, hb, hlen, vsl, vcl, hbj, hbi, by omega,
      by abel, fun k hk1 hk2 => hframe k hk2 hk1, hms⟩
  · rw [if_neg hlt]
    exact ⟨a, rfl, rfl, vcl, vsl, hcl, hsl, by omega, rfl,
      fun k hk1 hk2 => rfl, rfl⟩

theorem net2_run {a : List Int} {cl sl mid : Nat} {vcl vsl vmid : Int}
    (h1 : cl ≠ sl) (h2 : cl ≠ mid) (h3 : sl ≠ mid)
    (hcl : rd a cl = some vcl) (hsl : rd a sl = some vsl)
    (hmid : rd a mid = some vmid) (hchain : vcl ≤ vsl) :
    ∃ b, net2 a cl sl mid = some b ∧ b.length = a.length ∧
      ∃ u1 u2 u3, b[cl]? = some u1 ∧ b[sl]? = some u2 ∧
        b[mid]? = some u3 ∧ u1 ≤ u2 ∧ u2 ≤ u3 ∧
        ({u1} + {u2} + {u3} : Multiset Int) = {vcl} + {vsl} + {vmid} ∧
        (∀ k, k ≠ cl → k ≠ sl → k ≠ mid → b[k]? = a[k]?) ∧
        (↑b : Multiset Int) = ↑a := by
  unfold net2
  rw [hmid, hsl]
  simp only [Option.bind_eq_bind, Option.some_bind]
  by_cases hA : vmid < vsl
  · rw [if_pos hA]
    obtain ⟨a1, ha1, hlen1, hA1, hA2, hframe1, hms1⟩ :=
      swapIdx_post (Ne.symm h3) hmid hsl
    rw [ha1]
    simp only [Option.some_bind]
    have hrcl1 : rd a1 cl = some vcl := by
      show a1[cl]? = some vcl
      rw [hframe1 cl h2 h1]
      exact hcl
    rw [hrcl1]
    simp only [Option.some_bind]
    by_cases hB : vmid < vcl
    · rw [if_pos hB]
      have hrsl1 : rd a1 sl = some vmid := hA2
      obtain ⟨b, hb, hlen2, hB1, hB2, hframe2, hms2⟩ :=
        swapIdx_post (Ne.symm h1) hrsl1 hrcl1
      have hbmid : b[mid]? = some vsl := by
        rw [hframe2 mid (Ne.symm h3) (Ne.symm h2), hA1]
      refine ⟨b, hb, by rw [hlen2, hlen1], vmid, vcl, vsl, hB2, hB1,
        hbmid, by omega, hchain, by abel, ?_, hms2.trans hms1⟩
      intro k hk1 hk2 hk3
      rw [hframe2 k hk2 hk1, hframe1 k hk3 hk2]
    · rw [if_neg hB]
      refine ⟨a1, rfl, hlen1, vcl, vmid, vsl, hrcl1, hA2, hA1,
        by omega, by omega, by abel, ?_, hms1⟩
      intro k hk1 hk2 hk3
      exact hframe1 k hk3 hk2
  · rw [if_neg hA]
    exact ⟨a, rfl, rfl, vcl, vsl, vmid, hcl, hsl, hmid, hchain,
      by omega, rfl, fun k hk1 hk2 hk3 => rfl, rfl⟩

theorem net3_run {a : List Int} {cl sl mid sr : Nat} {vcl vsl vmid vsr : Int}
    (h1 : cl ≠ sl) (h2 : cl ≠ mid) (h3 : sl ≠ mid)
    (h4 : cl ≠ sr) (h5 : sl ≠ sr) (h6 : mid ≠ sr)
    (hcl : rd a cl = some vcl) (hsl : rd a sl = some vsl)
    (hmid : rd a mid = some vmid) (hsr : rd a sr = some vsr)
    (hc1 : vcl ≤ vsl) (hc2 : vsl ≤ vmid) :
    ∃ b, net3 a cl sl mid sr = some b ∧ b.length = a.length ∧
      ∃ u1 u2 u3 u4, b[cl]? = some u1 ∧ b[sl]? = some u2 ∧
        b[mid]? = some u3 ∧ b[sr]? = some u4 ∧
        u1 ≤ u2 ∧ u2 ≤ u3 ∧ u3 ≤ u4 ∧
        ({u1} + {u2} + {u3} + {u4} : Multiset Int) =
          {vcl} + {vsl} + {vmid} + {vsr} ∧
        (∀ k, k ≠ cl → k ≠ sl → k ≠ mid → k ≠ sr → b[k]? = a[k]?) ∧
        (↑b : Multiset Int) = ↑a := by
  unfold net3
  rw [hsr, hmid]
  simp only [Option.bind_eq_bind, Option.some_bind]
  by_cases hA : vsr < vmid
  · rw [if_pos hA]
    obtain ⟨a1, ha1, hlen1, hA1, hA2, hframe1, hms1⟩ :=
      swapIdx_post (Ne.symm h6) hsr hmid
    rw [ha1]
    simp only [Option.some_bind]
    have hrsl1 : rd a1 sl = some vsl := by
      show a1[sl]? = some vsl
      rw [hframe1 sl h5 h3]
      exact hsl
    have hrcl1 : rd a1 cl = some vcl := by
      show a1[cl]? = some vcl
      rw [hframe1 cl h4 h2]
      exact hcl
    rw [hrsl1]
    simp only [Option.some_bind]
    by_cases hB : vsr < vsl
    · rw [if_pos hB]
      have hrmid1 : rd a1 mid = some vsr := hA2
      obtain ⟨a2, ha2, hlen2, hB1, hB2, hframe2, hms2⟩ :=
        swapIdx_post (Ne.symm h3) hrmid1 hrsl1
      rw [ha2]
      simp only [Option.some_bind]
      have hrcl2 : rd a2 cl = some vcl := by
        show a2[cl]? = some vcl
        rw [hframe2 cl h2 h1]
        exact hrcl1
      have ha2sr : a2[sr]? = some vmid := by
        rw [hframe2 sr (Ne.symm h6) (Ne.symm h5), hA1]
      rw [hrcl2]
      simp only [Option.some_bind]
      by_cases hC : vsr < vcl
      · rw [if_pos hC]
        have hrsl2 : rd a2 sl = some vsr := hB2
        obtain ⟨b, hb, hlen3, hC1, hC2, hframe3, hms3⟩ :=
          swapIdx_post (Ne.symm h1) hrsl2 hrcl2
        have hbmid : b[mid]? = some vsl := by
          rw [hframe3 mid (Ne.symm h3) (Ne.symm h2), hB1]
        have hbsr : b[sr]? = some vmid := by
          rw [hframe3 sr (Ne.symm h5) (Ne.symm h4), ha2sr]
        refine ⟨b, hb, by rw [hlen3, hlen2, hlen1], vsr, vcl, vsl, vmid,
          hC2, hC1, hbmid, hbsr, by omega, hc1, hc2, by abel, ?_,
          (hms3.trans hms2).trans hms1⟩
        intro k hk1 hk2 hk3 hk4
        rw [hframe3 k hk2 hk1, hframe2 k hk3 hk2, hframe1 k hk4 hk3]
      · rw [if_neg hC]
        refine ⟨a2, rfl, by rw [hlen2, hlen1], vcl, vsr, vsl, vmid,
          hrcl2, hB2, hB1, ha2sr, by omega, by omega, hc2, by abel, ?_,
          hms2.trans hms1⟩
        intro k hk1 hk2 hk3 hk4
        rw [hframe2 k hk3 hk2, hframe1 k hk4 hk3]
    · rw [if_neg hB]
      refine ⟨a1, rfl, hlen1, vcl, vsl, vsr, vmid,
        hrcl1, hrsl1, hA2, hA1, hc1, by omega, by omega, by abel, ?_,
        hms1⟩
      intro k hk1 hk2 hk3 hk4
      rw [hframe1 k hk4 hk3]
  · rw [if_neg hA]
    exact ⟨a, rfl, rfl, vcl, vsl, vmid, vsr, hcl, hsl, hmid, hsr,
      hc1, hc2, by omega, rfl, fun k hk1 hk2 hk3 hk4 => rfl, rfl⟩

theorem net4_run {a : List Int} {cl sl mid sr cr : Nat}
    {vcl vsl vmid vsr vcr : Int}
    (h1 : cl ≠ sl) (h2 : cl ≠ mid) (h3 : sl ≠ mid)
    (h4 : cl ≠ sr) (h5 : sl ≠ sr) (h6 : mid ≠ sr)
    (h7 : cl ≠ cr) (h8 : sl ≠ cr) (h9 : mid ≠ cr) (h10 : sr ≠ cr)
    (hcl : rd a cl = some vcl) (hsl : rd a sl = some vsl)
    (hmid : rd a mid = some vmid) (hsr : rd a sr = some vsr)
    (hcr : rd a cr = some vcr)
    (hc1 : vcl ≤ vsl) (hc2 : vsl ≤ vmid) (hc3 : vmid ≤ vsr) :
    ∃ b, net4 a cl sl mid sr cr = some b ∧ b.length = a.length ∧
      ∃ u1 u2 u3 u4 u5, b[cl]? = some u1 ∧ b[sl]? = some u2 ∧
        b[mid]? = some u3 ∧ b[sr]? = some u4 ∧ b[cr]? = some u5 ∧
        u1 ≤ u2 ∧ u2 ≤ u3 ∧ u3 ≤ u4 ∧ u4 ≤ u5 ∧
        ({u1} + {u2} + {u3} + {u4} + {u5} : Multiset Int) =
          {vcl} + {vsl} + {vmid} + {vsr} + {vcr} ∧
        (∀ k, k ≠ cl → k ≠ sl → k ≠ mid → k ≠ sr → k ≠ cr →
          b[k]? = a[k]?) ∧
        (↑b : Multiset Int) = ↑a := by
  unfold net4
  rw [hcr, hsr]
  simp only [Option.bind_eq_bind, Option.some_bind]
  by_cases hA : vcr < vsr
  · rw [if_pos hA]
    obtain ⟨a1, ha1, hlen1, hA1, hA2, hframe1, hms1⟩ :=
      swapIdx_post (Ne.symm h10) hcr hsr
    rw [ha1]
    simp only [Option.some_bind]
    have hrmid1 : rd a1 mid = some vmid := by
      show a1[mid]? = some vmid
      rw [hframe1 mid h9 h6]
      exact hmid
    have hrsl1 : rd a1 sl = some vsl := by
      show a1[sl]? = some vsl
      rw [hframe1 sl h8 h5]
      exact hsl
    have hrcl1 : rd a1 cl = some vcl := by
      show a1[cl]? = some vcl
      rw [hframe1 cl h7 h4]
      exact hcl
    rw [hrmid1]
    simp only [Option.some_bind]
    by_cases hB : vcr < vmid
    · rw [if_pos hB]
      have hrsr1 : rd a1 sr = some vcr := hA2
      obtain ⟨a2, ha2, hlen2, hB1, hB2, hframe2, hms2⟩ :=
        swapIdx_post (Ne.symm h6) hrsr1 hrmid1
      rw [ha2]
      simp only [Option.some_bind]
      have hrsl2 : rd a2 sl = some vsl := by
        show a2[sl]? = some vsl
        rw [hframe2 sl h5 h3]
        exact hrsl1
      have hrcl2 : rd a2 cl = some vcl := by
        show a2[cl]? = some vcl
        rw [hframe2 cl h4 h2]
        exact hrcl1
      have ha2cr : a2[cr]? = some vsr := by
        rw [hframe2 cr (Ne.symm h10) (Ne.symm h9), hA1]
      rw [hrsl2]
      simp only [Option.some_bind]
      by_cases hC : vcr < vsl
      · rw [if_pos hC]
        have hrmid2 : rd a2 mid = some vcr := hB2
        obtain ⟨a3, ha3, hlen3, hC1, hC2, hframe3, hms3⟩ :=
          swapIdx_post (Ne.symm h3) hrmid2 hrsl2
        rw [ha3]
        simp only [Option.some_bind]
        have hrcl3 : rd a3 cl = some vcl := by
          show a3[cl]? = some vcl
          rw [hframe3 cl h2 h1]
          exact hrcl2
        have ha3sr : a3[sr]? = some vmid := by
          rw [hframe3 sr (Ne.symm h6) (Ne.symm h5), hB1]
        have ha3cr : a3[cr]? = some vsr := by
          rw [hframe3 cr (Ne.symm h9) (Ne.symm h8), ha2cr]
        rw [hrcl3]
        simp only [Option.some_bind]
        by_cases hD : vcr < vcl
        · rw [if_pos hD]
          have hrsl3 : rd a3 sl = some vcr := hC2
          obtain ⟨b, hb, hlen4, hD1, hD2, hframe4, hms4⟩ :=
            swapIdx_post (Ne.symm h1) hrsl3 hrcl3
          have hbmid : b[mid]? = some vsl := by
            rw [hframe4 mid (Ne.symm h3) (Ne.symm h2), hC1]
          have hbsr : b[sr]? = some vmid := by
            rw [hframe4 sr (Ne.symm h5) (Ne.symm h4), ha3sr]
          have hbcr : b[cr]? = some vsr := by
            rw [hframe4 cr (Ne.symm h8) (Ne.symm h7), ha3cr]
          refine ⟨b, hb, by rw [hlen4, hlen3, hlen2, hlen1],
            vcr, vcl, vsl, vmid, vsr, hD2, hD1, hbmid, hbsr, hbcr,
            by omega, hc1, hc2, hc3, by abel, ?_,
            ((hms4.trans hms3).trans hms2).trans hms1⟩
          intro k hk1 hk2 hk3 hk4 hk5
          rw [hframe4 k hk2 hk1, hframe3 k hk3 hk2, hframe2 k hk4 hk3,
            hframe1 k hk5 hk4]
        · rw [if_neg hD]
          refine ⟨a3, rfl, by rw [hlen3, hlen2, hlen1],
            vcl, vcr, vsl, vmid, vsr, hrcl3, hC2, hC1, ha3sr, ha3cr,
            by omega, by omega, hc2, hc3, by abel, ?_,
            (hms3.trans hms2).trans hms1⟩
          intro k hk1 hk2 hk3 hk4 hk5
          rw [hframe3 k hk3 hk2, hframe2 k hk4 hk3, hframe1 k hk5 hk4]
      · rw [if_neg hC]
        refine ⟨a2, rfl, by rw [hlen2, hlen1],
          vcl, vsl, vcr, vmid, vsr, hrcl2, hrsl2, hB2, hB1, ha2cr,
          hc1, by omega, by omega, hc3, by abel, ?_,
          hms2.trans hms1⟩
        intro k hk1 hk2 hk3 hk4 hk5
        rw [hframe2 k hk4 hk3, hframe1 k hk5 hk4]
    · rw [if_neg hB]
      refine ⟨a1, rfl, hlen1,
        vcl, vsl, vmid, vcr, vsr, hrcl1, hrsl1, hrmid1, hA2, hA1,
        hc1, hc2, by omega, by omega, by abel, ?_, hms1⟩
      intro k hk1 hk2 hk3 hk4 hk5
      rw [hframe1 k hk5 hk4]
  · rw [if_neg hA]
    exact ⟨a, rfl, rfl, vcl, vsl, vmid, vsr, vcr, hcl, hsl, hmid, hsr,
      hcr, hc1, hc2, hc3, by omega, rfl,
      fun k hk1 hk2 hk3 hk4 hk5 => rfl, rfl⟩

theorem netChain_run {a : List Int} {cl sl mid sr cr : Nat}
    {vcl vsl vmid vsr vcr : Int}
    (h1 : cl ≠ sl) (h2 : cl ≠ mid) (h3 : sl ≠ mid)
    (h4 : cl ≠ sr) (h5 : sl ≠ sr) (h6 : mid ≠ sr)
    (h7 : cl ≠ cr) (h8 : sl ≠ cr) (h9 : mid ≠ cr) (h10 : sr ≠ cr)
    (hcl : rd a cl = some vcl) (hsl : rd a sl = some vsl)
    (hmid : rd a mid = some vmid) (hsr : rd a sr = some vsr)
    (hcr : rd a cr = some vcr) :
    ∃ b, (do
        let a1 ← net1 a cl sl
        let a2 ← net2 a1 cl sl mid
        let a3 ← net3 a2 cl sl mid sr
        net4 a3 cl sl mid sr cr) = some b ∧ b.length = a.length ∧
      ∃ u1 u2 u3 u4 u5, b[cl]? = some u1 ∧ b[sl]? = some u2 ∧
        b[mid]? = some u3 ∧ b[sr]? = some u4 ∧ b[cr]? = some u5 ∧
        u1 ≤ u2 ∧ u2 ≤ u3 ∧ u3 ≤ u4 ∧ u4 ≤ u5 ∧
        ({u1} + {u2} + {u3} + {u4} + {u5} : Multiset Int) =
          {vcl} + {vsl} + {vmid} + {vsr} + {vcr} ∧
        (∀ k, k ≠ cl → k ≠ sl → k ≠ mid → k ≠ sr → k ≠ cr →
          b[k]? = a[k]?) ∧
        (↑b : Multiset Int) = ↑a := by
  obtain ⟨a1, e1, len1, u1, u2, r1cl, r1sl, c12, msPair, fr1, m1⟩ :=
    net1_run h1 hcl hsl
  have r1mid : rd a1 mid = some vmid := by
    show a1[mid]? = some vmid
    rw [fr1 mid (Ne.symm h2) (Ne.symm h3)]
    exact hmid
  obtain ⟨a2, e2, len2, w1, w2, w3, r2cl, r2sl, r2mid, cw1, cw2,
      msTrio, fr2, m2⟩ := net2_run h1 h2 h3 r1cl r1sl r1mid c12
  have r2sr : rd a2 sr = some vsr := by
    show a2[sr]? = some vsr
    rw [fr2 sr (Ne.symm h4) (Ne.symm h5) (Ne.symm h6),
      fr1 sr (Ne.symm h4) (Ne.symm h5)]
    exact hsr
  obtain ⟨a3, e3, len3, y1, y2, y3, y4, r3cl, r3sl, r3mid, r3sr,
      cy1, cy2, cy3, msQuad, fr3, m3⟩ :=
    net3_run h1 h2 h3 h4 h5 h6 r2cl r2sl r2mid r2sr cw1 cw2
  have r3cr : rd a3 cr = some vcr := by
    show a3[cr]? = some vcr
    rw [fr3 cr (Ne.symm h7) (Ne.symm h8) (Ne.symm h9) (Ne.symm h10),
      fr2 cr (Ne.symm h7) (Ne.symm h8) (Ne.symm h9),
      fr1 cr (Ne.symm h7) (Ne.symm h8)]
    exact hcr
  obtain ⟨b, e4, len4, z1, z2, z3, z4, z5, r4cl, r4sl, r4mid, r4sr,
      r4cr, cz1, cz2, cz3, cz4, ms5, fr4, m4⟩ :=
    net4_run h1 h2 h3 h4 h5 h6 h7 h8 h9 h10 r3cl r3sl r3mid r3sr r3cr
      cy1 cy2 cy3
  refine ⟨b, ?_, by rw [len4, len3, len2, len1], z1, z2, z3, z4, z5,
    r4cl, r4sl, r4mid, r4sr, r4cr, cz1, cz2, cz3, cz4, ?_, ?_,
    ((m4.trans m3).trans m2).trans m1⟩
  · simp only [Option.bind_eq_bind]
    rw [e1]
    simp only [Option.some_bind]
    rw [e2]
    simp only [Option.some_bind]
    rw [e3]
    simp only [Option.some_bind]
    exact e4
  · rw [ms5, msQuad, msTrio, msPair]
  · intro k hk1 hk2 hk3 hk4 hk5
    rw [fr4 k hk1 hk2 hk3 hk4 hk5, fr3 k hk1 hk2 hk3 hk4,
      fr2 k hk1 hk2 hk3, fr1 k hk1 hk2]

/-- Claim C8: when all six adjacent candidate comparisons fail the `<=`
test -- i.e. `*low > *cl > *sl > *mid > *sr > *cr > *high` is a strictly
descending chain -- the driver swaps `low + i` with `high - i` for every
`i < mid - low` (leaving the middle and everything outside `[low, high]`
untouched) and does not sort the five candidates; in every other case it
insertion-sorts the five candidates in place (widening `cl` to `low` when
`*low < *cl` and `cr` to `high` when `*high > *cr`), leaving them in
non-decreasing order, a multiset permutation of the five former candidate
values, and performs no rotation (all other positions are unchanged). -/
theorem c8_descending_rotation_vs_network (a : List Int) (low high : Nat)
    (y t3 t6 mid sl sr cl cr : Nat)
    (vlow vcl vsl vmid vsr vcr vhigh : Int)
    (hx : 87 ≤ high - low) (hh : high < a.length)
    (hy : y = (high - low) >>> 2) (ht3 : t3 = y + (y >>> 1))
    (ht6 : t6 = t3 >>> 1)
    (hmid : mid = low + ((high - low) >>> 1))
    (hsl : sl = low + t3) (hsr : sr = high - t3)
    (hcl : cl = low + t6) (hcr : cr = high - t6)
    (hrlow : rd a low = some vlow) (hrcl : rd a cl = some vcl)
    (hrsl : rd a sl = some vsl) (hrmid : rd a mid = some vmid)
    (hrsr : rd a sr = some vsr) (hrcr : rd a cr = some vcr)
    (hrhigh : rd a high = some vhigh) :
    ((vcl < vlow ∧ vsl < vcl ∧ vmid < vsl ∧ vsr < vmid ∧ vcr < vsr ∧
        vhigh < vcr) →
      ∃ b, pivotPrep a low high = some b ∧ b.length = a.length ∧
        (∀ i, i < mid - low →
          b[low + i]? = a[high - i]? ∧ b[high - i]? = a[low + i]?) ∧
        (∀ j, (j < low ∨ (mid ≤ j ∧ j + mid ≤ low + high) ∨ high < j) →
          b[j]? = a[j]?) ∧
        (↑b : Multiset Int) = ↑a) ∧
    (¬(vcl < vlow ∧ vsl < vcl ∧ vmid < vsl ∧ vsr < vmid ∧ vcr < vsr ∧
        vhigh < vcr) →
      ∃ b, pivotPrep a low high = some b ∧ b.length = a.length ∧
        ∃ u1 u2 u3 u4 u5,
          b[if vlow < vcl then low else cl]? = some u1 ∧
          b[sl]? = some u2 ∧ b[mid]? = some u3 ∧ b[sr]? = some u4 ∧
          b[if vcr < vhigh then high else cr]? = some u5 ∧
          u1 ≤ u2 ∧ u2 ≤ u3 ∧ u3 ≤ u4 ∧ u4 ≤ u5 ∧
          ({u1} + {u2} + {u3} + {u4} + {u5} : Multiset Int) =
            {if vlow < vcl then vlow else vcl} + {vsl} + {vmid} + {vsr} +
              {if vcr < vhigh then vhigh else vcr} ∧
          (∀ k, k ≠ (if vlow < vcl then low else cl) → k ≠ sl →
            k ≠ mid → k ≠ sr → k ≠ (if vcr < vhigh then high else cr) →
            b[k]? = a[k]?) ∧
          (↑b : Multiset Int) = ↑a) := by
  have hy4 : y = (high - low) / 4 := by
    rw [hy, Nat.shiftRight_eq_div_pow]
  have ht3d : t3 = y + y / 2 := by
    rw [ht3, Nat.shiftRight_eq_div_pow]
  have ht6d : t6 = t3 / 2 := by
    rw [ht6, Nat.shiftRight_eq_div_pow]
  have hmidd : mid = low + (high - low) / 2 := by
    rw [hmid, Nat.shiftRight_eq_div_pow]
  have o1 : low < cl := by omega
  have o2 : cl < sl := by omega
  have o3 : sl < mid := by omega
  have o4 : mid < sr := by omega
  have o5 : sr < cr := by omega
  have o6 : cr < high := by omega
  constructor
  · intro hdesc
    have hcond : ¬(vlow ≤ vcl ∨ vcl ≤ vsl ∨ vsl ≤ vmid ∨ vmid ≤ vsr ∨
        vsr ≤ vcr ∨ vcr ≤ vhigh) := by omega
    obtain ⟨b, hb, hlen, hpairs, hframe, hms⟩ :=
      @rotLoop_run mid low high (mid + 1) a low high rfl (by omega)
        (by omega) hh (le_refl low) (by omega)
    refine ⟨b, ?_, hlen, ?_, ?_, hms⟩
    · unfold pivotPrep
      simp only [← hy, ← ht3, ← ht6, ← hmid, ← hsl, ← hsr, ← hcl, ← hcr]
      rw [hrlow, hrcl, hrsl, hrmid, hrsr, hrcr, hrhigh]
      simp only [Option.bind_eq_bind, Option.some_bind]
      rw [if_neg hcond]
      exact hb
    · intro i hi
      have h := hpairs (low + i) (by omega) (by omega)
      rwa [show low + high - (low + i) = high - i from by omega] at h
    · intro j hj
      exact hframe j (by omega)
  · intro hnd
    have hcond : vlow ≤ vcl ∨ vcl ≤ vsl ∨ vsl ≤ vmid ∨ vmid ≤ vsr ∨
        vsr ≤ vcr ∨ vcr ≤ vhigh := by omega
    obtain ⟨b, hb, hlen, z1, z2, z3, z4, z5, rcl, rsl, rmid, rsr, rcr,
        cz1, cz2, cz3, cz4, ms5, fr, hmsb⟩ :=
      @netChain_run a (if vlow < vcl then low else cl) sl mid sr
        (if vcr < vhigh then high else cr)
        (if vlow < vcl then vlow else vcl) vsl vmid vsr
        (if vcr < vhigh then vhigh else vcr)
        (by split_ifs <;> omega) (by split_ifs <;> omega)
        (by omega) (by split_ifs <;> omega) (by omega) (by omega)
        (by split_ifs <;> omega) (by split_ifs <;> omega)
        (by split_ifs <;> omega) (by split_ifs <;> omega)
        (by split_ifs <;> assumption) hrsl hrmid hrsr
        (by split_ifs <;> assumption)
    refine ⟨b, ?_, hlen, z1, z2, z3, z4, z5, rcl, rsl, rmid, rsr, rcr,
      cz1, cz2, cz3, cz4, ms5, fr, hmsb⟩
    unfold pivotPrep
    simp only [← hy, ← ht3, ← ht6, ← hmid, ← hsl, ← hsr, ← hcl, ← hcr]
    rw [hrlow, hrcl, hrsl, hrmid, hrsr, hrcr, hrhigh]
    simp only [Option.bind_eq_bind, Option.some_bind]
    rw [if_pos hcond]
    simp only [gt_iff_lt]
    exact hb

set_option maxRecDepth 100000 in
/-- Witness for `c8_descending_rotation_vs_network`: the strictly
descending 88-element array `87, 86, ..., 0` takes the swap-rotation
branch, which reverses the range around `mid = 43`. -/
theorem c8_descending_rotation_vs_network_witness :
    (87 : Nat) ≤ 87 - 0 ∧
    (∃ b, pivotPrep ((List.range 88).map (fun n => (87 - (n : Int))))
        0 87 = some b ∧
      b.length =
        ((List.range 88).map (fun n => (87 - (n : Int)))).length ∧
      (∀ i, i < 43 - 0 →
        b[0 + i]? =
          ((List.range 88).map (fun n => (87 - (n : Int))))[87 - i]? ∧
        b[87 - i]? =
          ((List.range 88).map (fun n => (87 - (n : Int))))[0 + i]?) ∧
      (∀ j, (j < 0 ∨ (43 ≤ j ∧ j + 43 ≤ 0 + 87) ∨ 87 < j) →
        b[j]? =
          ((List.range 88).map (fun n => (87 - (n : Int))))[j]?) ∧
      (↑b : Multiset Int) =
        ↑((List.range 88).map (fun n => (87 - (n : Int))))) :=
  ⟨by decide,
    (c8_descending_rotation_vs_network
      ((List.range 88).map (fun n => (87 - (n : Int)))) 0 87
      21 31 15 43 31 56 15 72
      87 72 56 44 31 15 0
      (by decide) (by decide) (by decide) (by decide) (by decide)
      (by decide) (by decide) (by decide) (by decide) (by decide)
      (by decide) (by decide) (by decide) (by decide) (by decide)
      (by decide) (by decide)).1 (by decide)⟩

/-! ## Unconditional multiset preservation of the in-place transforms -/

theorem msTransfer {x : List Int} {i j : Nat} {u : Int}
    (hu : x[i]? = some u) (hj : j < x.length) (q : Int) :
    (↑((x.set j u).set i q) : Multiset Int) = ↑(x.set j q) := by
  have hxj : x[j]? = some (x[j]) := List.getElem?_eq_getElem hj
  have hui : (x.set j u)[i]? = some u := by
    rcases eq_or_ne j i with rfl | hne
    · rw [List.getElem?_set_eq_of_lt _ hj]
    · rw [List.getElem?_set_ne hne]
      exact hu
  have E2 := @msSet (x.set j u) i u hui q
  have E1 := @msSet x j (x[j]) hxj u
  have T := @msSet x j (x[j]) hxj q
  have key : (↑((x.set j u).set i q) : Multiset Int) + {u} + {x[j]} =
      ↑(x.set j q) + {u} + {x[j]} := by
    calc (↑((x.set j u).set i q) : Multiset Int) + {u} + {x[j]}
        = (↑(x.set j u) + {q}) + {x[j]} := by rw [E2]
      _ = (↑(x.set j u) + {x[j]}) + {q} := by abel
      _ = (↑x + {u}) + {q} := by rw [E1]
      _ = (↑x + {q}) + {u} := by abel
      _ = (↑(x.set j q) + {x[j]}) + {u} := by rw [← T]
      _ = ↑(x.set j q) + {u} + {x[j]} := by abel
  exact add_right_cancel (add_right_cancel key)

theorem swapIdx_ms {a : List Int} {i j : Nat} {b : List Int}
    (h : swapIdx a i j = some b) : (↑b : Multiset Int) = ↑a := by
  obtain ⟨vi, vj, hvi, hvj, rfl⟩ := swapIdx_some_dest h
  exact msSwap hvi hvj

theorem net1_ms {a : List Int} {cl sl : Nat} {b : List Int}
    (h : net1 a cl sl = some b) : (↑b : Multiset Int) = ↑a := by
  unfold net1 at h
  rcases h1 : rd a sl with _ | vsl <;> rw [h1] at h
  · simp at h
  rcases h2 : rd a cl with _ | vcl <;> rw [h2] at h
  · simp at h
  simp only [Option.bind_eq_bind, Option.some_bind] at h
  split_ifs at h
  · exact swapIdx_ms h
  · exact congrArg _ (Option.some.inj h).symm

theorem net2_ms {a : List Int} {cl sl mid : Nat} {b : List Int}
    (h : net2 a cl sl mid = some b) : (↑b : Multiset Int) = ↑a := by
  unfold net2 at h
  rcases h1 : rd a mid with _ | vmid <;> rw [h1] at h
  · simp at h
  rcases h2 : rd a sl with _ | vsl <;> rw [h2] at h
  · simp at h
  simp only [Option.bind_eq_bind, Option.some_bind] at h
  split_ifs at h
  · rcases h3 : swapIdx a mid sl with _ | a1 <;> rw [h3] at h
    · simp at h
    simp only [Option.some_bind] at h
    rcases h4 : rd a1 cl with _ | vcl <;> rw [h4] at h
    · simp at h
    simp only [Option.some_bind] at h
    split_ifs at h
    · exact (swapIdx_ms h).trans (swapIdx_ms h3)
    · exact (congrArg _ (Option.some.inj h).symm).trans (swapIdx_ms h3)
  · exact congrArg _ (Option.some.inj h).symm

theorem net3_ms {a : List Int} {cl sl mid sr : Nat} {b : List Int}
    (h : net3 a cl sl mid sr = some b) : (↑b : Multiset Int) = ↑a := by
  unfold net3 at h
  rcases h1 : rd a sr with _ | vsr <;> rw [h1] at h
  · simp at h
  rcases h2 : rd a mid with _ | vmid <;> rw [h2] at h
  · simp at h
  simp only [Option.bind_eq_bind, Option.some_bind] at h
  split_ifs at h
  · rcases h3 : swapIdx a sr mid with _ | a1 <;> rw [h3] at h
    · simp at h
    simp only [Option.some_bind] at h
    rcases h4 : rd a1 sl with _ | vsl <;> rw [h4] at h
    · simp at h
    simp only [Option.some_bind] at h
    split_ifs at h
    · rcases h5 : swapIdx a1 mid sl with _ | a2 <;> rw [h5] at h
      · simp at h
      simp only [Option.some_bind] at h
      rcases h6 : rd a2 cl with _ | vcl <;> rw [h6] at h
      · simp at h
      simp only [Option.some_bind] at h
      split_ifs at h
      · exact ((swapIdx_ms h).trans (swapIdx_ms h5)).trans (swapIdx_ms h3)
      · exact ((congrArg _ (Option.some.inj h).symm).trans
          (swapIdx_ms h5)).trans (swapIdx_ms h3)
    · exact (congrArg _ (Option.some.inj h).symm).trans (swapIdx_ms h3)
  · exact congrArg _ (Option.some.inj h).symm

theorem net4_ms {a : List Int} {cl sl mid sr cr : Nat} {b : List Int}
    (h : net4 a cl sl mid sr cr = some b) : (↑b : Multiset Int) = ↑a := by
  unfold net4 at h
  rcases h1 : rd a cr with _ | vcr <;> rw [h1] at h
  · simp at h
  rcases h2 : rd a sr with _ | vsr <;> rw [h2] at h
  · simp at h
  simp only [Option.bind_eq_bind, Option.some_bind] at h
  split_ifs at h
  · rcases h3 : swapIdx a cr sr with _ | a1 <;> rw [h3] at h
    · simp at h
    simp only [Option.some_bind] at h
    rcases h4 : rd a1 mid with _ | vmid <;> rw [h4] at h
    · simp at h
    simp only [Option.some_bind] at h
    split_ifs at h
    · rcases h5 : swapIdx a1 sr mid with _ | a2 <;> rw [h5] at h
      · simp at h
      simp only [Option.some_bind] at h
      rcases h6 : rd a2 sl with _ | vsl <;> rw [h6] at h
      · simp at h
      simp only [Option.some_bind] at h
      split_ifs at h
      · rcases h7 : swapIdx a2 mid sl with _ | a3 <;> rw [h7] at h
        · simp at h
        simp only [Option.some_bind] at h
        rcases h8 : rd a3 cl with _ | vcl <;> rw [h8] at h
        · simp at h
        simp only [Option.some_bind] at h
        split_ifs at h
        · exact (((swapIdx_ms h).trans (swapIdx_ms h7)).trans
            (swapIdx_ms h5)).trans (swapIdx_ms h3)
        · exact (((congrArg _ (Option.some.inj h).symm).trans
            (swapIdx_ms h7)).trans (swapIdx_ms h5)).trans (swapIdx_ms h3)
      · exact ((congrArg _ (Option.some.inj h).symm).trans
          (swapIdx_ms h5)).trans (swapIdx_ms h3)
    · exact (congrArg _ (Option.some.inj h).symm).trans (swapIdx_ms h3)
  · exact congrArg _ (Option.some.inj h).symm

theorem rotLoop_ms {mid : Nat} : ∀ {fuel : Nat} {a : List Int} {u q : Nat}
    {b : List Int}, rotLoop mid fuel a u q = some b →
    (↑b : Multiset Int) = ↑a := by
  intro fuel
  induction fuel with
  | zero =>
    intro a u q b h
    simp [rotLoop] at h
  | succ n ih =>
    intro a u q b h
    unfold rotLoop at h
    split_ifs at h
    · rcases h1 : swapIdx a u q with _ | a1 <;> rw [h1] at h
      · simp at h
      simp only [Option.bind_eq_bind, Option.some_bind] at h
      exact (ih h).trans (swapIdx_ms h1)
    · exact congrArg _ (Option.some.inj h).symm

theorem scramble_ms {a : List Int} {low high len : Nat} {b : List Int}
    (h : scramble a low high len = some b) : (↑b : Multiset Int) = ↑a := by
  unfold scramble at h
  simp only [Option.bind_eq_bind] at h
  split_ifs at h with h88 h128
  · rcases h1 : swapIdx a low (low + (len >>> 2)) with _ | a1 <;>
      rw [h1] at h
    · simp at h
    simp only [Option.bind_eq_bind, Option.some_bind] at h
    rcases h2 : swapIdx a1 high (high - (len >>> 2)) with _ | a2 <;>
      rw [h2] at h
    · simp at h
    simp only [Option.some_bind] at h
    rcases h3 : swapIdx a2 (low + 1) (low + ((len >>> 2) + 1)) with _ | a3 <;>
      rw [h3] at h
    · simp at h
    simp only [Option.some_bind] at h
    rcases h4 : swapIdx a3 (low + 2) (low + ((len >>> 2) + 2)) with _ | a4 <;>
      rw [h4] at h
    · simp at h
    simp only [Option.some_bind] at h
    rcases h5 : swapIdx a4 (high - 2) (high - ((len >>> 2) + 2)) with _ | a5 <;>
      rw [h5] at h
    · simp at h
    simp only [Option.some_bind] at h
    exact (((((swapIdx_ms h).trans (swapIdx_ms h5)).trans
      (swapIdx_ms h4)).trans (swapIdx_ms h3)).trans
      (swapIdx_ms h2)).trans (swapIdx_ms h1)
  · rcases h1 : swapIdx a low (low + (len >>> 2)) with _ | a1 <;>
      rw [h1] at h
    · simp at h
    simp only [Option.bind_eq_bind, Option.some_bind] at h
    rcases h2 : swapIdx a1 high (high - (len >>> 2)) with _ | a2 <;>
      rw [h2] at h
    · simp at h
    simp only [Option.some_bind] at h
    exact ((congrArg _ (Option.some.inj h).symm).trans
      (swapIdx_ms h2)).trans (swapIdx_ms h1)
  · exact congrArg _ (Option.some.inj h).symm

theorem partLoopLT_msQ {p : Int} : ∀ {fuel : Nat} {a : List Int}
    {l g k : Nat} {a3 : List Int} {l3 g3 : Nat},
    partLoopLT p fuel a l g k = some (a3, l3, g3) →
    ∀ q : Int, (↑(a3.set g3 q) : Multiset Int) = ↑(a.set g q) := by
  intro fuel
  induction fuel with
  | zero =>
    intro a l g k a3 l3 g3 h
    simp [partLoopLT] at h
  | succ n ih =>
    intro a l g k a3 l3 g3 h q
    unfold partLoopLT at h
    split_ifs at h with hgk
    · rcases h1 : rd a l with _ | v <;> rw [h1] at h
      · simp at h
      simp only [Option.bind_eq_bind, Option.some_bind] at h
      rcases h2 : wr a g v with _ | a1 <;> rw [h2] at h
      · simp at h
      simp only [Option.some_bind] at h
      rcases h3 : rd a1 (g + 1) with _ | w0 <;> rw [h3] at h
      · simp at h
      simp only [Option.some_bind] at h
      rcases h4 : wr a1 l w0 with _ | a2 <;> rw [h4] at h
      · simp at h
      simp only [Option.some_bind] at h
      have hrec := ih h q
      obtain ⟨hg, rfl⟩ := wr_eq_some.mp h2
      obtain ⟨hl, rfl⟩ := wr_eq_some.mp h4
      rw [hrec, msTransfer h3 hl q, msTransfer h1 hg q]
    · simp only [Option.some.injEq, Prod.mk.injEq] at h
      obtain ⟨rfl, -, rfl⟩ := h
      rfl

theorem partLoopEQ_msQ {hv : Int} : ∀ {fuel : Nat} {a : List Int}
    {l k g : Nat} {a3 : List Int} {l3 k3 : Nat},
    partLoopEQ hv fuel a l k g = some (a3, l3, k3) →
    ∀ q : Int, (↑(a3.set k3 q) : Multiset Int) = ↑(a.set k q) := by
  intro fuel
  induction fuel with
  | zero =>
    intro a l k g a3 l3 k3 h
    simp [partLoopEQ] at h
  | succ n ih =>
    intro a l k g a3 l3 k3 h q
    unfold partLoopEQ at h
    split_ifs at h with hkg
    · rcases h1 : rd a l with _ | v <;> rw [h1] at h
      · simp at h
      simp only [Option.bind_eq_bind, Option.some_bind] at h
      rcases h2 : wr a k v with _ | a1 <;> rw [h2] at h
      · simp at h
      simp only [Option.some_bind] at h
      rcases h3 : rd a1 (k + 1) with _ | w0 <;> rw [h3] at h
      · simp at h
      simp only [Option.some_bind] at h
      rcases h4 : wr a1 l w0 with _ | a2 <;> rw [h4] at h
      · simp at h
      simp only [Option.some_bind] at h
      have hrec := ih h q
      obtain ⟨hk, rfl⟩ := wr_eq_some.mp h2
      obtain ⟨hl, rfl⟩ := wr_eq_some.mp h4
      rw [hrec, msTransfer h3 hl q, msTransfer h1 hk q]
    · simp only [Option.some.injEq, Prod.mk.injEq] at h
      obtain ⟨rfl, -, rfl⟩ := h
      rfl

theorem partitionCore_ms {sub1 : Int → Int} {a : List Int}
    {low high mid : Nat} {b : List Int} {lp l0 k : Nat}
    (h : partitionCore sub1 a low high mid = some (b, lp, l0, k)) :
    (↑b : Multiset Int) = ↑a := by
  unfold partitionCore at h
  simp only [Option.bind_eq_bind] at h
  rcases h1 : rd a mid with _ | p <;> rw [h1] at h
  · simp at h
  simp only [Option.some_bind] at h
  rcases h2 : scanLT a p (a.length + 1) low with _ | e0 <;> rw [h2] at h
  · simp at h
  simp only [Option.some_bind] at h
  rcases h3 : rd a e0 with _ | v <;> rw [h3] at h
  · simp at h
  simp only [Option.some_bind] at h
  rcases h4 : wr a mid v with _ | a1 <;> rw [h4] at h
  · simp at h
  simp only [Option.some_bind] at h
  rcases h5 : wr a1 e0 (sub1 p) with _ | a2 <;> rw [h5] at h
  · simp at h
  simp only [Option.some_bind] at h
  rcases h6 : scanDownGE a2 p (high + 1) with _ | k0 <;> rw [h6] at h
  · simp at h
  simp only [Option.some_bind] at h
  rcases h7 : partLoopLT p (k0 + 1) a2 e0 e0 k0 with _ | s <;> rw [h7] at h
  · simp at h
  obtain ⟨a3, lf, g3⟩ := s
  simp only [Option.some_bind] at h
  rcases h8 : rd a3 lf with _ | v2 <;> rw [h8] at h
  · simp at h
  simp only [Option.some_bind] at h
  rcases h9 : wr a3 g3 v2 with _ | a4 <;> rw [h9] at h
  · simp at h
  simp only [Option.some_bind] at h
  rcases h10 : wr a4 lf p with _ | a5 <;> rw [h10] at h
  · simp at h
  simp only [Option.some_bind, Option.some.injEq, Prod.mk.injEq] at h
  obtain ⟨rfl, -, -, -⟩ := h
  have hloop := partLoopLT_msQ h7
  obtain ⟨hg3, rfl⟩ := wr_eq_some.mp h9
  obtain ⟨hlf, rfl⟩ := wr_eq_some.mp h10
  obtain ⟨hmlen, rfl⟩ := wr_eq_some.mp h4
  obtain ⟨helen, rfl⟩ := wr_eq_some.mp h5
  calc (↑((a3.set g3 v2).set lf p) : Multiset Int)
      = ↑(a3.set g3 p) := msTransfer h8 hg3 p
    _ = ↑(((a.set mid v).set e0 (sub1 p)).set e0 p) := hloop p
    _ = ↑((a.set mid v).set e0 p) := by rw [List.set_set]
    _ = ↑(a.set mid p) := msTransfer h3 hmlen p
    _ = ↑a := by rw [set_rd_self h1]

theorem partitionMain_ms {sub1 : Int → Int} {a : List Int}
    {low high mid : Nat} {b : List Int} {l g : Nat}
    (h : partitionMain sub1 a low high mid = some (b, l, g)) :
    (↑b : Multiset Int) = ↑a := by
  unfold partitionMain at h
  simp only [Option.bind_eq_bind] at h
  rcases h1 : partitionCore sub1 a low high mid with _ | r <;> rw [h1] at h
  · simp at h
  obtain ⟨r1, r2, r3, r4⟩ := r
  simp only [Option.some_bind, Option.some.injEq, Prod.mk.injEq] at h
  obtain ⟨rfl, -, -⟩ := h
  exact partitionCore_ms h1

theorem partitionLeft_ms {add1 : Int → Int} {a : List Int}
    {low high : Nat} {hq : Int} {b : List Int} {l2 : Nat}
    (h : partitionLeft add1 a low high hq = some (b, l2)) :
    (↑b : Multiset Int) = ↑a := by
  unfold partitionLeft at h
  simp only [Option.bind_eq_bind] at h
  rcases h1 : scanDownGT a hq (high + 1) with _ | g0 <;> rw [h1] at h
  · simp at h
  simp only [Option.some_bind] at h
  rcases h2 : rd a g0 with _ | e <;> rw [h2] at h
  · simp at h
  simp only [Option.some_bind] at h
  rcases h3 : wr a g0 (add1 hq) with _ | a1 <;> rw [h3] at h
  · simp at h
  simp only [Option.some_bind] at h
  rcases h4 : scanEq a1 hq (a1.length + 1) low with _ | e0 <;> rw [h4] at h
  · simp at h
  simp only [Option.some_bind] at h
  rcases h5 : wr a1 g0 e with _ | a2 <;> rw [h5] at h
  · simp at h
  simp only [Option.some_bind] at h
  obtain ⟨hg0, rfl⟩ := wr_eq_some.mp h3
  obtain ⟨hg0b, rfl⟩ := wr_eq_some.mp h5
  have hA : (a.set g0 (add1 hq)).set g0 e = a := by
    rw [List.set_set]
    exact set_rd_self h2
  rw [hA] at h
  rcases h6 : rd a e0 with _ | p <;> rw [h6] at h
  · simp at h
  simp only [Option.some_bind] at h
  rcases h7 : partLoopEQ hq (g0 + 1) a e0 e0 g0 with _ | s <;> rw [h7] at h
  · simp at h
  obtain ⟨a3, lf, k3⟩ := s
  simp only [Option.some_bind] at h
  rcases h8 : rd a3 lf with _ | v <;> rw [h8] at h
  · simp at h
  simp only [Option.some_bind] at h
  rcases h9 : wr a3 k3 v with _ | a4 <;> rw [h9] at h
  · simp at h
  simp only [Option.some_bind] at h
  rcases h10 : wr a4 lf p with _ | a5 <;> rw [h10] at h
  · simp at h
  simp only [Option.some_bind, Option.some.injEq, Prod.mk.injEq] at h
  obtain ⟨rfl, -⟩ := h
  have hloop := partLoopEQ_msQ h7
  obtain ⟨hk3, rfl⟩ := wr_eq_some.mp h9
  obtain ⟨hlf, rfl⟩ := wr_eq_some.mp h10
  calc (↑((a3.set k3 v).set lf p) : Multiset Int)
      = ↑(a3.set k3 p) := msTransfer h8 hk3 p
    _ = ↑(a.set e0 p) := hloop p
    _ = ↑a := by rw [set_rd_self h6]

theorem pivotPrep_ms {a : List Int} {low high : Nat} {b : List Int}
    (h : pivotPrep a low high = some b) : (↑b : Multiset Int) = ↑a := by
  unfold pivotPrep at h
  simp only [Option.bind_eq_bind, Option.bind_eq_some] at h
  obtain ⟨vlow, h1, vcl, h2, vsl, h3, vmid, h4, vsr, h5, vcr, h6,
    vhigh, h7, h⟩ := h
  by_cases hcond : vlow ≤ vcl ∨ vcl ≤ vsl ∨ vsl ≤ vmid ∨ vmid ≤ vsr ∨
      vsr ≤ vcr ∨ vcr ≤ vhigh
  · rw [if_pos hcond] at h
    simp only [Option.bind_eq_bind, Option.bind_eq_some] at h
    obtain ⟨a1, hn1, a2, hn2, a3, hn3, hn4⟩ := h
    exact (((net4_ms hn4).trans (net3_ms hn3)).trans
      (net2_ms hn2)).trans (net1_ms hn1)
  · rw [if_neg hcond] at h
    exact rotLoop_ms h

/-- Claim C10: every intermediate transformation inside `qSort` -- the
five-candidate conditional-swap network and the swap-rotation (both inside
`pivotPrep`), `scramble`, the gap-based main partition (including the
temporary sentinel write `*l = p - 1`, overwritten by the loop, and the
final pivot restore), and the partition-left pass (including the sentinel
`*g = h + 1`, restored before the loop) -- leaves the array a multiset
permutation of its pre-state at the operation boundary. -/
theorem c10_intermediate_transforms_preserve_multiset :
    (∀ (a : List Int) (low high : Nat) (b : List Int),
      pivotPrep a low high = some b → (↑b : Multiset Int) = ↑a) ∧
    (∀ (a : List Int) (low high len : Nat) (b : List Int),
      scramble a low high len = some b → (↑b : Multiset Int) = ↑a) ∧
    (∀ (sub1 : Int → Int) (a : List Int) (low high mid : Nat)
      (b : List Int) (l g : Nat),
      partitionMain sub1 a low high mid = some (b, l, g) →
      (↑b : Multiset Int) = ↑a) ∧
    (∀ (add1 : Int → Int) (a : List Int) (low high : Nat) (hq : Int)
      (b : List Int) (l2 : Nat),
      partitionLeft add1 a low high hq = some (b, l2) →
      (↑b : Multiset Int) = ↑a) :=
  ⟨fun _ _ _ _ h => pivotPrep_ms h,
   fun _ _ _ _ _ h => scramble_ms h,
   fun _ _ _ _ _ _ _ _ h => partitionMain_ms h,
   fun _ _ _ _ _ _ _ h => partitionLeft_ms h⟩

set_option maxRecDepth 100000 in
/-- Witness for `c10_intermediate_transforms_preserve_multiset`: concrete
completed runs of `pivotPrep`, `scramble` (on an 88-element array, so both
leading swap pairs execute), the main partition, and partition-left, each
yielding a multiset permutation of its input. -/
theorem c10_intermediate_transforms_preserve_multiset_witness :
    (↑([1, 2, 3] : List Int) : Multiset Int) = ↑([3, 1, 2] : List Int) ∧
    (↑(((((List.range 88).map Int.ofNat).set 0 22).set 22 0).set 87
        (65 : Int) |>.set 65 87) : Multiset Int) =
      ↑((List.range 88).map Int.ofNat) ∧
    (↑([2, 1, 3] : List Int) : Multiset Int) = ↑([2, 3, 1] : List Int) ∧
    (↑([1, 1, 1, 2] : List Int) : Multiset Int) =
      ↑([1, 2, 1, 1] : List Int) :=
  ⟨c10_intermediate_transforms_preserve_multiset.1 [3, 1, 2] 0 2 [1, 2, 3]
      (by decide),
   c10_intermediate_transforms_preserve_multiset.2.1
      ((List.range 88).map Int.ofNat) 0 87 88
      (((((List.range 88).map Int.ofNat).set 0 22).set 22 0).set 87
        (65 : Int) |>.set 65 87) (by decide),
   c10_intermediate_transforms_preserve_multiset.2.2.1 (sub1W 8)
      [2, 3, 1] 0 2 1 [2, 1, 3] 1 2 (by decide),
   c10_intermediate_transforms_preserve_multiset.2.2.2 (add1W 8)
      [1, 2, 1, 1] 1 3 1 [1, 1, 1, 2] 3 (by decide)⟩
